import Mathlib

/-!
The PPM (P3) reader of go-ppm2png, `main.go`.

A shallow embedding of `parseHeader`, `parseColor`, `parseColors` and `convert`.

* A Go `string` is the list of its bytes (`GoString`); `str` turns an ASCII literal into one.
* Go's `int` is the 64-bit two's-complement integer: arithmetic is carried out in `Int`
  and wrapped by `wrapInt`; `byte(x)` is `toByte`.
* A `*bufio.Scanner` configured with `bufio.ScanLines` is the list of the outcomes of its
  next calls of `Scan()` (`Scanner`): `some line` for a call that returns true with that line,
  `none` for a call that returns false although a later call will return true (as happens once
  after a line of `bufio.MaxScanTokenSize` bytes or more); past the end of the list every call
  returns false.  Where a scanner is written as a list of lines, a line `l` stands for the
  outcome `some l`.
* Run-time panics (division by zero, index out of range, the two panics of `image.NewRGBA`)
  are the `error` side of `Except Panic`; a Go `error` value is an `Option GoError`, `none`
  being `nil`.  Running out of memory below the allocation limit is not modelled.
* Writes to standard output (`fmt.Printf`) and the `sync.WaitGroup` bookkeeping are left out.
-/

namespace Ppm2png

/-! ## Strings, integers, errors -/

/-- A Go string, as the sequence of its bytes. -/
abbrev GoString := List Nat

/-- The bytes of an ASCII literal. -/
def str (s : String) : GoString := s.toList.map Char.toNat

/-- The non-nil `error` values the program can hold: the `fmt.Errorf("invalid file header")`
of `parseHeader`, and the `*strconv.NumError` of a failed `strconv.Atoi`. -/
inductive GoError where
  | invalidHeader
  | numError
  deriving DecidableEq, Repr

/-- Run-time panics. -/
inductive Panic where
  | divideByZero
  | indexOutOfRange
  | hugeImage
  | makesliceLen
  deriving DecidableEq, Repr

deriving instance DecidableEq for Except

/-- Largest value of a Go `int` (64-bit). -/
def maxInt : Int := 2 ^ 63 - 1

/-- Smallest value of a Go `int` (64-bit). -/
def minInt : Int := -(2 ^ 63)

/-- Two's-complement wrap-around of an integer to the range of `int`. -/
def wrapInt (x : Int) : Int := (x + 2 ^ 63) % 2 ^ 64 - 2 ^ 63

/-- The conversion `byte(x)`: the low eight bits. -/
def toByte (x : Int) : Nat := (x % 256).toNat

/-- An ASCII decimal digit. -/
def isDigit (b : Nat) : Bool := decide (48 ≤ b) && decide (b ≤ 57)

/-- Value of a run of decimal digits, most significant first. -/
def digitsValue (ds : GoString) : Nat := ds.foldl (fun n b => n * 10 + (b - 48)) 0

/-- The function `strconv.Atoi`: an optional sign followed by one or more decimal digits,
the value lying in the range of `int`; anything else is a `*strconv.NumError`. -/
def Atoi (s : GoString) : Except GoError Int :=
  let neg : Bool := s.head? = some 45
  let ds : GoString := if s.head? = some 45 ∨ s.head? = some 43 then s.tail else s
  if ds = [] ∨ ds.all isDigit = false then .error .numError
  else if neg then
    (if (digitsValue ds : Int) ≤ 2 ^ 63 then .ok (-(digitsValue ds : Int)) else .error .numError)
  else
    (if (digitsValue ds : Int) < 2 ^ 63 then .ok (digitsValue ds : Int) else .error .numError)

/-- The function `strings.Split(s, sep)` for a one-byte separator: the pieces between the
separators, one more than the number of separators. -/
def Split (s : GoString) (sep : Nat) : List GoString :=
  match s with
  | [] => [[]]
  | c :: cs =>
    if c = sep then [] :: Split cs sep
    else
      match Split cs sep with
      | [] => [[c]]
      | t :: ts => (c :: t) :: ts

/-! ## The line scanner -/

/-- A `*bufio.Scanner` splitting on lines: the outcomes of its next calls of `Scan()`, in
order.  `some line` is a call that returns true, `Text()` being `line`; `none` is a call that
returns false while a later call returns true.  Past the end every call returns false. -/
abbrev Scanner := List (Option GoString)

/-- The constant `bufio.MaxScanTokenSize`, the size of the buffer of a `bufio.Scanner`. -/
def maxScanTokenSize : Nat := 65536

/-- Drop one trailing carriage return (`dropCR` of `bufio`). -/
def dropCR (l : GoString) : GoString := if l.getLast? = some 13 then l.dropLast else l

/-- The raw lines of a file: the pieces between newlines; an empty piece after the last
newline is not a line. -/
def rawLines (content : GoString) : List GoString :=
  if (Split content 10).getLast? = some [] then (Split content 10).dropLast
  else Split content 10

/-- The outcomes of `Scan()` over the raw lines of a file.  A line shorter than the buffer is
yielded without its trailing carriage return.  On a line that fills the buffer `Scan()`
returns false (`bufio.ErrTooLong`); the call after it yields the content of the buffer, and
nothing is read from then on. -/
def scanLines : List GoString → Scanner
  | [] => []
  | line :: rest =>
    if line.length < maxScanTokenSize then some (dropCR line) :: scanLines rest
    else [none, some (dropCR (line.take maxScanTokenSize))]

/-- The scanner `bufio.NewScanner(readFile)` with `Split(bufio.ScanLines)` on a file of the
given content. -/
def NewScanner (content : GoString) : Scanner :=
  scanLines (rawLines content)

/-! ## `parseHeader` -/

/-- The constant `fileHeader`. -/
def fileHeader : GoString := str "P3"

/-- What `parseHeader` returns, together with the scanner it leaves behind. -/
structure HeaderResult where
  width : Int
  height : Int
  maxVal : Int
  err : Option GoError
  rest : Scanner
  deriving DecidableEq, Repr

/-- Lines 49-56 of `parseHeader`: the max-value line. -/
def parseHeaderMaxVal (width height : Int) (fileScanner : Scanner) : HeaderResult :=
  match fileScanner with
  | [] => ⟨width, height, 0, none, []⟩
  | none :: rest => ⟨width, height, 0, none, rest⟩
  | some line :: rest =>
    match Atoi line with
    | .error e => ⟨0, 0, 0, some e, rest⟩
    | .ok maxVal => ⟨width, height, maxVal, none, rest⟩

/-- Lines 32-47 of `parseHeader`: the dimensions line.  `err` is the local variable `err`,
which the wrong-token-count branch returns as it stands. -/
def parseHeaderDims (err : Option GoError) (fileScanner : Scanner) : HeaderResult :=
  match fileScanner with
  | [] => parseHeaderMaxVal 0 0 []
  | none :: rest => parseHeaderMaxVal 0 0 rest
  | some line :: rest =>
    match Split line 32 with
    | [v0, v1] =>
      match Atoi v0 with
      | .error e => ⟨0, 0, 0, some e, rest⟩
      | .ok width =>
        match Atoi v1 with
        | .error e => ⟨0, 0, 0, some e, rest⟩
        | .ok height => parseHeaderMaxVal width height rest
    | _ => ⟨0, 0, 0, err, rest⟩

/-- The function `parseHeader`: `err` is declared (nil) and never assigned before the
dimensions line. -/
def parseHeader (fileScanner : Scanner) : HeaderResult :=
  let err : Option GoError := none
  match fileScanner with
  | [] => parseHeaderDims err []
  | none :: rest => parseHeaderDims err rest
  | some text :: rest =>
    if text ≠ fileHeader then ⟨0, 0, 0, some .invalidHeader, rest⟩
    else parseHeaderDims err rest

/-! ## `parseColor` and `parseColors` -/

/-- The function `parseColor`: `(value * 255) / max` on `int`, then `byte(value)`. -/
def parseColor (color : GoString) (max : Int) : Except Panic (Nat × Option GoError) :=
  match Atoi color with
  | .error e => .ok (0, some e)
  | .ok value =>
    if max = 0 then .error .divideByZero
    else .ok (toByte (wrapInt (Int.tdiv (wrapInt (value * 255)) max)), none)

/-- The statement `imageData.Pix[i], err = parseColor(color, m)`: the call is made first, then
the first result is stored under a bounds check. -/
def storeColor (pix : List Nat) (i : Nat) (color : GoString) (m : Int) :
    Except Panic (List Nat × Option GoError) :=
  match parseColor color m with
  | .error p => .error p
  | .ok (b, e) => if i < pix.length then .ok (pix.set i b, e) else .error .indexOutOfRange

/-- What `parseColors` returns, with the pixel buffer and the scanner it leaves behind. -/
structure ColorsResult where
  err : Option GoError
  Pix : List Nat
  rest : Scanner
  deriving DecidableEq, Repr

/-- The loop of `parseColors`, with its variables `row` and `err`.  The loop ends at the
first call of `Scan()` that returns false. -/
def parseColorsLoop (m : Int) :
    Scanner → List Nat → Nat → Option GoError → Except Panic ColorsResult
  | [], pix, _, _ => .ok ⟨none, pix, []⟩
  | none :: rest, pix, _, _ => .ok ⟨none, pix, rest⟩
  | some line :: rest, pix, row, err =>
    match Split line 32 with
    | [v0, v1, v2] =>
      match storeColor pix row v0 m with
      | .error p => .error p
      | .ok (pix0, some e) => .ok ⟨some e, pix0, rest⟩
      | .ok (pix0, none) =>
        match storeColor pix0 (row + 1) v1 m with
        | .error p => .error p
        | .ok (pix1, some e) => .ok ⟨some e, pix1, rest⟩
        | .ok (pix1, none) =>
          match storeColor pix1 (row + 2) v2 m with
          | .error p => .error p
          | .ok (pix2, some e) => .ok ⟨some e, pix2, rest⟩
          | .ok (pix2, none) =>
            if row + 3 < pix2.length then
              parseColorsLoop m rest (pix2.set (row + 3) 255) (row + 4) none
            else .error .indexOutOfRange
    | _ => .ok ⟨err, pix, rest⟩

/-- The function `parseColors`. -/
def parseColors (fileScanner : Scanner) (pix : List Nat) (m : Int) :
    Except Panic ColorsResult :=
  parseColorsLoop m fileScanner pix 0 none

/-! ## `convert` -/

/-- An `image.Rectangle`. -/
structure Rectangle where
  minX : Int
  minY : Int
  maxX : Int
  maxY : Int
  deriving DecidableEq, Repr

/-- The function `image.Rect`: the corners are put in order. -/
def Rect (x0 y0 x1 y1 : Int) : Rectangle :=
  ⟨if x0 > x1 then x1 else x0, if y0 > y1 then y1 else y0,
   if x0 > x1 then x0 else x1, if y0 > y1 then y0 else y1⟩

/-- The method `Rectangle.Dx`. -/
def Rectangle.Dx (r : Rectangle) : Int := wrapInt (r.maxX - r.minX)

/-- The method `Rectangle.Dy`. -/
def Rectangle.Dy (r : Rectangle) : Int := wrapInt (r.maxY - r.minY)

/-- An `*image.RGBA`. -/
structure RGBA where
  Pix : List Nat
  Stride : Int
  Rect : Rectangle
  deriving DecidableEq, Repr

/-- The function `mul3NonNeg` of package `image`: the product, or `-1` when a factor is
negative or a product overflows. -/
def mul3NonNeg (x y z : Int) : Int :=
  if x < 0 ∨ y < 0 ∨ z < 0 then -1
  else if x * y ≥ 2 ^ 64 then -1
  else if x * y * z ≥ 2 ^ 64 then -1
  else if x * y * z ≥ 2 ^ 63 then -1
  else x * y * z

/-- The constant `maxAlloc` of the Go runtime on a 64-bit platform: `make` panics on a
length above it. -/
def maxAlloc : Int := 2 ^ 48

/-- The function `image.NewRGBA`: a zeroed buffer of four bytes per pixel.  It panics when
the length of the buffer does not fit an `int`, and `make([]uint8, n)` panics when the length
is above `maxAlloc`. -/
def NewRGBA (r : Rectangle) : Except Panic RGBA :=
  if mul3NonNeg 4 r.Dx r.Dy < 0 then .error .hugeImage
  else if mul3NonNeg 4 r.Dx r.Dy > maxAlloc then .error .makesliceLen
  else .ok ⟨List.replicate (mul3NonNeg 4 r.Dx r.Dy).toNat 0, wrapInt (4 * r.Dx), r⟩

/-- What `convert` does to the outside world: `os.Create(dst)` succeeding, and the call
`png.Encode(writeFile, imageData)`. -/
inductive Event where
  | create
  | encode (imageData : RGBA)
  deriving DecidableEq, Repr

/-- The function `convert`.  `src` is the content of the source file (`none` when `os.Open`
fails) and `canCreate` tells whether `os.Create(dst)` succeeds.  The value `parseColors`
returns is dropped; the test after it reads the `err` of `parseHeader`. -/
def convert (src : Option GoString) (canCreate : Bool) : Except Panic (List Event) :=
  match src with
  | none => .ok []
  | some content =>
    let fileScanner := NewScanner content
    let hdr := parseHeader fileScanner
    if hdr.err ≠ none then .ok []
    else
      match NewRGBA (Rect 0 0 hdr.width hdr.height) with
      | .error p => .error p
      | .ok imageData =>
        match parseColors hdr.rest imageData.Pix hdr.maxVal with
        | .error p => .error p
        | .ok res =>
          if hdr.err ≠ none then .ok []
          else if canCreate = false then .ok []
          else .ok [.create, .encode { imageData with Pix := res.Pix }]

/-! ## The output name in `main` -/

/-- The function `strings.HasSuffix`. -/
def HasSuffix (s suffix : GoString) : Bool :=
  decide (suffix.length ≤ s.length) && decide (s.drop (s.length - suffix.length) = suffix)

/-- The function `strings.TrimSuffix`: `s` without the trailing `suffix`, or `s` itself when
it does not end with `suffix`. -/
def TrimSuffix (s suffix : GoString) : GoString :=
  if HasSuffix s suffix then s.take (s.length - suffix.length) else s

/-- Line 181 of `main`: the file name joined to the output directory for the entry `name`,
`strings.TrimSuffix(file.Name(), ".ppm") + ".png"`. -/
def outputName (name : GoString) : GoString :=
  TrimSuffix name (str ".ppm") ++ str ".png"

/-! ## Vocabulary for well-formed pixel data -/

/-- Lines 66-67 of `parseColor` on a value already read: `byte((value * 255) / max)`. -/
def scale (value max : Int) : Nat :=
  toByte (wrapInt (Int.tdiv (wrapInt (value * 255)) max))

/-- A pixel line of an input file: its three tokens, and the three integers they stand for. -/
structure PixelLine where
  tokR : GoString
  tokG : GoString
  tokB : GoString
  r : Int
  g : Int
  b : Int
  deriving DecidableEq, Repr

/-- The tokens of the line are read by `strconv.Atoi` as its three integers. -/
def PixelLine.Reads (p : PixelLine) : Prop :=
  Atoi p.tokR = .ok p.r ∧ Atoi p.tokG = .ok p.g ∧ Atoi p.tokB = .ok p.b

instance (p : PixelLine) : Decidable p.Reads :=
  inferInstanceAs (Decidable (_ ∧ _ ∧ _))

/-- The three integers of the line lie in `[0, M]`. -/
def PixelLine.InRange (p : PixelLine) (M : Int) : Prop :=
  (0 ≤ p.r ∧ p.r ≤ M) ∧ (0 ≤ p.g ∧ p.g ≤ M) ∧ (0 ≤ p.b ∧ p.b ≤ M)

instance (p : PixelLine) (M : Int) : Decidable (p.InRange M) :=
  inferInstanceAs (Decidable (_ ∧ _ ∧ _))

/-- The text of the line: the three tokens, one space between them. -/
def PixelLine.text (p : PixelLine) : GoString :=
  p.tokR ++ str " " ++ p.tokG ++ str " " ++ p.tokB

/-- The four bytes `parseColors` writes for the line. -/
def PixelLine.bytes (p : PixelLine) (m : Int) : List Nat :=
  [scale p.r m, scale p.g m, scale p.b m, 255]

/-- The bytes `parseColors` writes for a run of lines, in order. -/
def pixelBytes (m : Int) : List PixelLine → List Nat
  | [] => []
  | p :: ps => p.bytes m ++ pixelBytes m ps

/-- The example file of the specification: two pixels, red and green. -/
def exampleFile : GoString := str "P3\n2 1\n255\n255 0 0\n0 255 0\n"

/-- The pixel lines of `exampleFile`. -/
def examplePixels : List PixelLine :=
  [⟨str "255", str "0", str "0", 255, 0, 0⟩, ⟨str "0", str "255", str "0", 0, 255, 0⟩]

/-- A file whose only line, `1 ` followed by 65534 zeros, is `maxScanTokenSize` bytes long. -/
def longFirstLine : GoString := str "1 " ++ List.replicate 65534 48

/-- A file with the header `P3`, `1 1`, `255` and one pixel line, `0 0 0` with the first
token written with 65536 zeros. -/
def longPixelFile : GoString := str "P3\n1 1\n255\n" ++ List.replicate 65536 48 ++ str " 0 0\n"

/-! ## Machine arithmetic -/

theorem wrapInt_of_inRange (x : Int) (hlo : minInt ≤ x) (hhi : x ≤ maxInt) : wrapInt x = x := by
  unfold wrapInt
  unfold minInt at hlo
  unfold maxInt at hhi
  omega

theorem toByte_of_inRange (x : Int) (hlo : 0 ≤ x) (hhi : x ≤ 255) : (toByte x : Int) = x := by
  unfold toByte
  omega

/-- The quotient of the rescaling lies in `0..255` when `0 ≤ v ≤ max`. -/
theorem rescale_quot_bounds (v max : Int) (hmax : 0 < max) (h0 : 0 ≤ v) (hv : v ≤ max) :
    0 ≤ v * 255 / max ∧ v * 255 / max ≤ 255 := by
  constructor
  · exact Int.ediv_nonneg (by omega) (by omega)
  · have h : v * 255 ≤ 255 * max := by nlinarith
    calc v * 255 / max ≤ 255 * max / max := Int.ediv_le_ediv hmax h
      _ = 255 := Int.mul_ediv_cancel 255 (by omega)

/-- The result of `parseColor` on a token read as `v`, when neither the product nor the
quotient leaves the ranges of `int` and `byte`. -/
theorem parseColor_of_inRange (color : GoString) (v max : Int) (hmax : 0 < max)
    (htok : Atoi color = .ok v) (h0 : 0 ≤ v) (hrange : v * 255 ≤ maxInt)
    (hq : v * 255 / max ≤ 255) :
    parseColor color max = .ok ((v * 255 / max).toNat, none) := by
  have hq0 : 0 ≤ v * 255 / max := Int.ediv_nonneg (by omega) (by omega)
  have hw : wrapInt (v * 255) = v * 255 :=
    wrapInt_of_inRange _ (by unfold minInt; omega) hrange
  have hd : Int.tdiv (v * 255) max = v * 255 / max :=
    Int.tdiv_eq_ediv (by omega) (by omega)
  have hw2 : wrapInt (v * 255 / max) = v * 255 / max :=
    wrapInt_of_inRange _ (by unfold minInt; omega) (by unfold maxInt; omega)
  have hb : toByte (v * 255 / max) = (v * 255 / max).toNat := by
    unfold toByte
    congr 1
    omega
  have hne : max ≠ 0 := by omega
  simp [parseColor, htok, hne, hw, hd, hw2, hb]

/-! ## Tokens -/

/-- Every byte of a token that `Atoi` accepts is a sign or a digit. -/
theorem Atoi_ok_mem (s : GoString) (v : Int) (h : Atoi s = .ok v) (b : Nat) (hb : b ∈ s) :
    b = 45 ∨ b = 43 ∨ isDigit b = true := by
  cases s with
  | nil => simp at hb
  | cons c t =>
    simp only [Atoi, List.head?_cons, List.tail_cons, Option.some.injEq] at h
    by_cases hc : c = 45 ∨ c = 43
    · rw [if_pos hc] at h
      by_cases hd : t = [] ∨ t.all isDigit = false
      · rw [if_pos hd] at h
        cases h
      · rcases List.mem_cons.mp hb with hbc | hbt
        · subst hbc
          rcases hc with hc | hc
          · exact Or.inl hc
          · exact Or.inr (Or.inl hc)
        · right
          right
          have hall : t.all isDigit = true := by
            cases hall : t.all isDigit
            · exact absurd (Or.inr hall) hd
            · rfl
          exact List.all_eq_true.mp hall b hbt
    · rw [if_neg hc] at h
      by_cases hd : (c :: t) = [] ∨ (c :: t).all isDigit = false
      · rw [if_pos hd] at h
        cases h
      · right
        right
        have hall : (c :: t).all isDigit = true := by
          cases hall : (c :: t).all isDigit
          · exact absurd (Or.inr hall) hd
          · rfl
        exact List.all_eq_true.mp hall b hb

/-- A token that `Atoi` accepts holds no space. -/
theorem Atoi_ok_no_space (s : GoString) (v : Int) (h : Atoi s = .ok v) : 32 ∉ s := by
  intro hb
  rcases Atoi_ok_mem s v h 32 hb with h1 | h1 | h1
  · omega
  · omega
  · simp [isDigit] at h1

/-- What `Atoi` returns is an `int`. -/
theorem Atoi_ok_range (s : GoString) (v : Int) (h : Atoi s = .ok v) :
    minInt ≤ v ∧ v ≤ maxInt := by
  unfold Atoi at h
  simp only at h
  unfold minInt maxInt
  split_ifs at h <;> first
    | (injection h with h; subst h; constructor <;> omega)

theorem Split_of_not_mem (s : GoString) (sep : Nat) (h : sep ∉ s) : Split s sep = [s] := by
  induction s with
  | nil => rfl
  | cons c t ih =>
    have hc : c ≠ sep := fun e => h (by simp [e])
    have ht : sep ∉ t := fun e => h (List.mem_cons_of_mem _ e)
    simp [Split, hc, ih ht]

theorem Split_append_sep (a b : GoString) (sep : Nat) (h : sep ∉ a) :
    Split (a ++ sep :: b) sep = a :: Split b sep := by
  induction a with
  | nil => simp [Split]
  | cons c t ih =>
    have hc : c ≠ sep := fun e => h (by simp [e])
    have ht : sep ∉ t := fun e => h (List.mem_cons_of_mem _ e)
    simp [Split, hc, ih ht]

theorem Split_ne_nil (s : GoString) (sep : Nat) : Split s sep ≠ [] := by
  cases s with
  | nil => simp [Split]
  | cons c t =>
    unfold Split
    split_ifs
    · simp
    · split <;> simp

/-! ## The scanner on the content of a file -/

theorem rawLines_append_newline (l rest : GoString) (h : 10 ∉ l) :
    rawLines (l ++ 10 :: rest) = l :: rawLines rest := by
  unfold rawLines
  rw [Split_append_sep l rest 10 h]
  cases hs : Split rest 10 with
  | nil => exact absurd hs (Split_ne_nil rest 10)
  | cons x xs =>
    rw [List.getLast?_cons_cons]
    by_cases hl : (x :: xs).getLast? = some []
    · simp [hl]
    · simp [hl]

theorem rawLines_of_no_newline (l : GoString) (h : 10 ∉ l) (hne : l ≠ []) :
    rawLines l = [l] := by
  unfold rawLines
  rw [Split_of_not_mem l 10 h]
  simp [hne]

theorem dropCR_of_getLast (l : GoString) (h : l.getLast? ≠ some 13) : dropCR l = l := by
  simp [dropCR, h]

/-- A line that ends with a token `Atoi` accepts does not end with a carriage return. -/
theorem dropCR_append_token (a t : GoString) (v : Int) (ht : Atoi t = .ok v) :
    dropCR (a ++ t) = a ++ t := by
  apply dropCR_of_getLast
  intro hl
  have hne : t ≠ [] := by
    rintro rfl
    have : Atoi [] = .error .numError := by decide
    rw [this] at ht
    cases ht
  rw [List.getLast?_append] at hl
  cases hg : t.getLast? with
  | none => exact hne (List.getLast?_eq_none_iff.mp hg)
  | some x =>
    rw [hg] at hl
    have hx : x = 13 := by simpa using hl
    rcases Atoi_ok_mem t v ht x (List.mem_of_getLast?_eq_some hg) with h1 | h1 | h1
    · omega
    · omega
    · rw [hx] at h1
      simp [isDigit] at h1

theorem scanLines_short (line : GoString) (rest : List GoString)
    (h : line.length < maxScanTokenSize) :
    scanLines (line :: rest) = some (dropCR line) :: scanLines rest := by
  simp [scanLines, h]

theorem scanLines_long (line : GoString) (rest : List GoString)
    (h : maxScanTokenSize ≤ line.length) :
    scanLines (line :: rest) = [none, some (dropCR (line.take maxScanTokenSize))] := by
  have hn : ¬ line.length < maxScanTokenSize := by omega
  simp [scanLines, hn]

/-- Lines that are all shorter than the buffer, none of which ends with a carriage return,
are yielded one by one as they are. -/
theorem scanLines_of_short (lines : List GoString)
    (h : ∀ l ∈ lines, l.length < maxScanTokenSize ∧ dropCR l = l) :
    scanLines lines = lines.map some := by
  induction lines with
  | nil => rfl
  | cons l ls ih =>
    have hl := h l (List.mem_cons_self _ _)
    rw [scanLines_short l ls hl.1, hl.2, ih (fun x hx => h x (List.mem_cons_of_mem _ hx))]
    rfl

/-! ## Tokens written with zeros -/

theorem digitsValue_zeros (n : Nat) : digitsValue (List.replicate n 48) = 0 := by
  unfold digitsValue
  induction n with
  | zero => rfl
  | succ n ih => simpa [List.replicate_succ] using ih

theorem Atoi_zeros (n : Nat) : Atoi (List.replicate (n + 1) 48) = .ok 0 := by
  have hall : (List.replicate (n + 1) 48).all isDigit = true := by
    rw [List.all_eq_true]
    intro x hx
    rw [List.eq_of_mem_replicate hx]
    decide
  have hd := digitsValue_zeros (n + 1)
  have hne : List.replicate (n + 1) 48 ≠ [] := by simp
  have hh : (List.replicate (n + 1) 48).head? = some 48 := by simp [List.replicate_succ]
  simp [Atoi, hh, hall, hd]

/-! ## The decoding loop on well-formed lines -/

theorem set_append_add (pre t : List Nat) (k x : Nat) :
    (pre ++ t).set (pre.length + k) x = pre ++ t.set k x := by
  induction pre with
  | nil => simp
  | cons a pre ih =>
    have e : (a :: pre).length + k = (pre.length + k) + 1 := by simp; omega
    rw [e]
    simp [ih]

theorem parseColor_ok (color : GoString) (v m : Int) (hm : m ≠ 0) (htok : Atoi color = .ok v) :
    parseColor color m = .ok (scale v m, none) := by
  simp [parseColor, htok, hm, scale]

theorem storeColor_ok (pix : List Nat) (i : Nat) (color : GoString) (v m : Int) (hm : m ≠ 0)
    (htok : Atoi color = .ok v) (hi : i < pix.length) :
    storeColor pix i color m = .ok (pix.set i (scale v m), none) := by
  simp [storeColor, parseColor_ok color v m hm htok, hi]

theorem Split_text (p : PixelLine) (h : p.Reads) :
    Split p.text 32 = [p.tokR, p.tokG, p.tokB] := by
  have hsp : str " " = [32] := by decide
  obtain ⟨hr, hg, hb⟩ := h
  have e : p.text = p.tokR ++ 32 :: (p.tokG ++ 32 :: p.tokB) := by
    simp [PixelLine.text, hsp]
  rw [e, Split_append_sep _ _ 32 (Atoi_ok_no_space _ _ hr),
    Split_append_sep _ _ 32 (Atoi_ok_no_space _ _ hg),
    Split_of_not_mem _ 32 (Atoi_ok_no_space _ _ hb)]

theorem pixelBytes_length (m : Int) (px : List PixelLine) :
    (pixelBytes m px).length = 4 * px.length := by
  induction px with
  | nil => rfl
  | cons p ps ih =>
    simp only [pixelBytes, PixelLine.bytes, List.length_append, List.length_cons,
      List.length_nil, ih]
    omega

/-- On well-formed lines and a buffer with room for them, the loop writes four bytes per
line from `row` on, touches nothing else, reads every line and returns nil. -/
theorem parseColorsLoop_wellFormed (m : Int) (hm : m ≠ 0) (px : List PixelLine)
    (hreads : ∀ p ∈ px, p.Reads) :
    ∀ (pre post : List Nat) (err : Option GoError), 4 * px.length ≤ post.length →
      parseColorsLoop m ((px.map PixelLine.text).map some) (pre ++ post) pre.length err
        = .ok ⟨none, pre ++ pixelBytes m px ++ post.drop (4 * px.length), []⟩ := by
  induction px with
  | nil =>
    intro pre post err _
    simp [parseColorsLoop, pixelBytes]
  | cons p ps ih =>
    intro pre post err hlen
    have hp : p.Reads := hreads p (List.mem_cons_self _ _)
    have hps : ∀ q ∈ ps, q.Reads := fun q hq => hreads q (List.mem_cons_of_mem _ hq)
    simp only [List.length_cons] at hlen
    obtain ⟨a, b, c, d, post1, rfl⟩ :
        ∃ a b c d post1, post = a :: b :: c :: d :: post1 := by
      match post, hlen with
      | a :: b :: c :: d :: post1, _ => exact ⟨a, b, c, d, post1, rfl⟩
      | [], h => simp at h
      | [_], h => simp at h; omega
      | [_, _], h => simp at h; omega
      | [_, _, _], h => simp at h; omega
    have hlen1 : 4 * ps.length ≤ post1.length := by
      simp only [List.length_cons] at hlen
      omega
    obtain ⟨hr, hg, hb⟩ := hp
    have s0 : storeColor (pre ++ a :: b :: c :: d :: post1) pre.length p.tokR m
        = .ok (pre ++ scale p.r m :: b :: c :: d :: post1, none) := by
      rw [storeColor_ok _ _ _ _ _ hm hr (by simp)]
      have := set_append_add pre (a :: b :: c :: d :: post1) 0 (scale p.r m)
      simp only [Nat.add_zero] at this
      rw [this]
      rfl
    have s1 : storeColor (pre ++ scale p.r m :: b :: c :: d :: post1) (pre.length + 1) p.tokG m
        = .ok (pre ++ scale p.r m :: scale p.g m :: c :: d :: post1, none) := by
      rw [storeColor_ok _ _ _ _ _ hm hg (by simp), set_append_add]
      rfl
    have s2 : storeColor (pre ++ scale p.r m :: scale p.g m :: c :: d :: post1)
        (pre.length + 2) p.tokB m
        = .ok (pre ++ scale p.r m :: scale p.g m :: scale p.b m :: d :: post1, none) := by
      rw [storeColor_ok _ _ _ _ _ hm hb (by simp), set_append_add]
      rfl
    have s3 : (pre ++ scale p.r m :: scale p.g m :: scale p.b m :: d :: post1).set
        (pre.length + 3) 255
        = (pre ++ p.bytes m) ++ post1 := by
      rw [set_append_add]
      simp [PixelLine.bytes]
    have hin : pre.length + 3
        < (pre ++ scale p.r m :: scale p.g m :: scale p.b m :: d :: post1).length := by
      simp
    have hrow : pre.length + 4 = (pre ++ p.bytes m).length := by
      simp [PixelLine.bytes]
    simp only [List.map_cons, parseColorsLoop, Split_text p ⟨hr, hg, hb⟩, s0, s1, s2, hin,
      if_true, s3]
    rw [hrow, ih hps (pre ++ p.bytes m) post1 none hlen1]
    have hd : List.drop (4 * (ps.length + 1)) (a :: b :: c :: d :: post1)
        = List.drop (4 * ps.length) post1 := by
      have e : 4 * (ps.length + 1) = 4 * ps.length + 1 + 1 + 1 + 1 := by omega
      rw [e]
      rfl
    simp only [pixelBytes, List.length_cons, hd, List.append_assoc]

/-- On a zeroed buffer of exactly four bytes per line, `parseColors` returns nil and leaves
the bytes of the lines in the buffer. -/
theorem parseColors_wellFormed (m : Int) (hm : m ≠ 0) (px : List PixelLine)
    (hreads : ∀ p ∈ px, p.Reads) :
    parseColors ((px.map PixelLine.text).map some) (List.replicate (4 * px.length) 0) m
      = .ok ⟨none, pixelBytes m px, []⟩ := by
  have h := parseColorsLoop_wellFormed m hm px hreads [] (List.replicate (4 * px.length) 0)
    none (by simp)
  simpa [parseColors] using h

/-- The bytes of line `k` sit at `4k .. 4k+3`. -/
theorem pixelBytes_getElem (m : Int) (px : List PixelLine) (k : Nat) (p : PixelLine)
    (hk : px[k]? = some p) :
    (pixelBytes m px)[4 * k]? = some (scale p.r m) ∧
    (pixelBytes m px)[4 * k + 1]? = some (scale p.g m) ∧
    (pixelBytes m px)[4 * k + 2]? = some (scale p.b m) ∧
    (pixelBytes m px)[4 * k + 3]? = some 255 := by
  induction px generalizing k with
  | nil => simp at hk
  | cons q qs ih =>
    cases k with
    | zero =>
      simp at hk
      subst hk
      simp [pixelBytes, PixelLine.bytes]
    | succ k =>
      simp at hk
      obtain ⟨h0, h1, h2, h3⟩ := ih k hk
      have e0 : 4 * (k + 1) = 4 * k + 4 := by omega
      have e1 : 4 * (k + 1) + 1 = 4 * k + 1 + 4 := by omega
      have e2 : 4 * (k + 1) + 2 = 4 * k + 2 + 4 := by omega
      have e3 : 4 * (k + 1) + 3 = 4 * k + 3 + 4 := by omega
      have skip : ∀ n : Nat, (pixelBytes m (q :: qs))[n + 4]? = (pixelBytes m qs)[n]? := by
        intro n
        simp only [pixelBytes, PixelLine.bytes, List.cons_append, List.nil_append]
        rw [List.getElem?_cons_succ, List.getElem?_cons_succ, List.getElem?_cons_succ,
          List.getElem?_cons_succ]
      rw [e1, e2, e3, e0, skip, skip, skip, skip]
      exact ⟨h0, h1, h2, h3⟩

/-- When neither product nor quotient overflows, `scale` is the truncated quotient. -/
theorem scale_of_inRange (v m : Int) (hm : 0 < m) (h0 : 0 ≤ v) (hv : v ≤ m)
    (hrange : m * 255 ≤ maxInt) : (scale v m : Int) = v * 255 / m := by
  have hb := rescale_quot_bounds v m hm h0 hv
  have hvr : v * 255 ≤ maxInt := by nlinarith
  have hw : wrapInt (v * 255) = v * 255 :=
    wrapInt_of_inRange _ (by unfold minInt; omega) hvr
  have hd : Int.tdiv (v * 255) m = v * 255 / m := Int.tdiv_eq_ediv (by omega) (by omega)
  have hw2 : wrapInt (v * 255 / m) = v * 255 / m :=
    wrapInt_of_inRange _ (by unfold minInt; omega) (by unfold maxInt; omega)
  rw [scale, hw, hd, hw2]
  exact toByte_of_inRange _ hb.1 hb.2

/-! ## The header of a well-formed file -/

theorem parseHeader_of_tokens (tw th tm : GoString) (W H M : Int) (pixels : Scanner)
    (hW : Atoi tw = .ok W) (hH : Atoi th = .ok H) (hM : Atoi tm = .ok M) :
    parseHeader (str "P3" :: (tw ++ str " " ++ th) :: tm :: pixels)
      = ⟨W, H, M, none, pixels⟩ := by
  have hP3 : (str "P3" ≠ fileHeader) = False := by simp [fileHeader]
  have hsp : str " " = [32] := by decide
  have hsplit : Split (tw ++ str " " ++ th) 32 = [tw, th] := by
    rw [hsp, List.append_assoc, List.singleton_append,
      Split_append_sep tw th 32 (Atoi_ok_no_space tw W hW),
      Split_of_not_mem th 32 (Atoi_ok_no_space th H hH)]
  simp only [parseHeader, hP3, if_false, parseHeaderDims, hsplit, hW, hH, parseHeaderMaxVal, hM]

/-- The image `image.NewRGBA(image.Rect(0, 0, W, H))` for positive `W`, `H` whose buffer of
`4 * W * H` bytes is within the allocation limit. -/
theorem NewRGBA_of_pos (W H : Int) (hW : 0 < W) (hH : 0 < H) (hWH : 4 * (W * H) ≤ maxAlloc) :
    NewRGBA (Rect 0 0 W H)
      = .ok ⟨List.replicate (4 * (W * H).toNat) 0, 4 * W, ⟨0, 0, W, H⟩⟩ := by
  unfold maxAlloc at hWH
  have hWle : W ≤ W * H := by nlinarith
  have hHle : H ≤ W * H := by nlinarith
  have hnW : ¬ (0 > W) := by omega
  have hnH : ¬ (0 > H) := by omega
  have hrect : Rect 0 0 W H = ⟨0, 0, W, H⟩ := by simp [Rect, hnW, hnH]
  have hDx : (Rectangle.mk 0 0 W H).Dx = W := by
    simp only [Rectangle.Dx, Int.sub_zero]
    exact wrapInt_of_inRange _ (by unfold minInt; omega) (by unfold maxInt; omega)
  have hDy : (Rectangle.mk 0 0 W H).Dy = H := by
    simp only [Rectangle.Dy, Int.sub_zero]
    exact wrapInt_of_inRange _ (by unfold minInt; omega) (by unfold maxInt; omega)
  have e : 4 * W * H = 4 * (W * H) := by ring
  have hmul : mul3NonNeg 4 W H = 4 * (W * H) := by
    unfold mul3NonNeg
    rw [e]
    split_ifs <;> omega
  have hstride : wrapInt (4 * W) = 4 * W :=
    wrapInt_of_inRange _ (by unfold minInt; omega) (by unfold maxInt; omega)
  have hnn : ¬ (4 * (W * H) < 0) := by omega
  have hna : ¬ (4 * (W * H) > 2 ^ 48) := by omega
  have htn : (4 * (W * H)).toNat = 4 * (W * H).toNat := by omega
  simp only [NewRGBA, maxAlloc, hrect, hDx, hDy, hmul, hnn, hna, if_false, hstride, htn]

/-! ## The claims on `parseColor` -/

/-- C1: for every `maxVal > 0` and every token that `strconv.Atoi` reads as an integer `v`
with `0 ≤ v ≤ maxVal` and `v * 255` within the range of `int`, `parseColor` returns, with a
nil error, the byte `⌊v * 255 / maxVal⌋`, and that quotient lies in `0..255`, so that the
conversion to `byte` loses nothing. -/
theorem parseColor_rescale (color : GoString) (v maxVal : Int) (hmax : 0 < maxVal)
    (htok : Atoi color = .ok v) (h0 : 0 ≤ v) (hv : v ≤ maxVal) (hrange : v * 255 ≤ maxInt) :
    ∃ b : Nat, parseColor color maxVal = .ok (b, none) ∧ (b : Int) = v * 255 / maxVal ∧
      0 ≤ v * 255 / maxVal ∧ v * 255 / maxVal ≤ 255 ∧
      toByte (v * 255 / maxVal) = b := by
  have hb := rescale_quot_bounds v maxVal hmax h0 hv
  refine ⟨(v * 255 / maxVal).toNat,
    parseColor_of_inRange color v maxVal hmax htok h0 hrange hb.2, ?_, hb.1, hb.2, ?_⟩
  · omega
  · unfold toByte
    congr 1
    omega

theorem parseColor_rescale_witness :
    ∃ b : Nat, parseColor (str "128") 255 = .ok (b, none) ∧ (b : Int) = 128 * 255 / 255 ∧
      (0 : Int) ≤ 128 * 255 / 255 ∧ (128 : Int) * 255 / 255 ≤ 255 ∧
      toByte (128 * 255 / 255) = b :=
  parseColor_rescale (str "128") 128 255 (by decide) (by decide) (by decide) (by decide)
    (by decide)

/-- C2, as stated, fails: with `maxVal = 2^62 + 1` the value `maxVal` itself is mapped to `0`,
not to `255`, because `maxVal * 255` wraps around in `int`. -/
theorem parseColor_maxVal_overflow :
    (0 : Int) < 4611686018427387905 ∧
    Atoi (str "4611686018427387905") = .ok 4611686018427387905 ∧
    parseColor (str "4611686018427387905") 4611686018427387905 = .ok (0, none) ∧
    parseColor (str "4611686018427387905") 4611686018427387905 ≠ .ok (255, none) := by
  decide

/-- C2, amended: for every `maxVal > 0`, `parseColor` maps a token read as `0` to `0`; when
`maxVal * 255` is within the range of `int` it maps a token read as `maxVal` to `255`; and
with `maxVal = 100` it maps `1` to `2`. -/
theorem parseColor_boundaries (maxVal : Int) (hmax : 0 < maxVal) :
    (∀ color, Atoi color = .ok 0 → parseColor color maxVal = .ok (0, none)) ∧
    (maxVal * 255 ≤ maxInt →
      ∀ color, Atoi color = .ok maxVal → parseColor color maxVal = .ok (255, none)) ∧
    parseColor (str "1") 100 = .ok (2, none) := by
  refine ⟨?_, ?_, by decide⟩
  · intro color htok
    have h := parseColor_of_inRange color 0 maxVal hmax htok (le_refl 0)
      (by unfold maxInt; omega) (by simp)
    simpa using h
  · intro hrange color htok
    have hq : maxVal * 255 / maxVal = 255 := by
      rw [Int.mul_comm]
      exact Int.mul_ediv_cancel 255 (by omega)
    have h := parseColor_of_inRange color maxVal maxVal hmax htok (by omega) hrange
      (by omega)
    rw [hq] at h
    simpa using h

theorem parseColor_boundaries_witness :
    (∀ color, Atoi color = .ok 0 → parseColor color 255 = .ok (0, none)) ∧
    ((255 : Int) * 255 ≤ maxInt →
      ∀ color, Atoi color = .ok 255 → parseColor color 255 = .ok (255, none)) ∧
    parseColor (str "1") 100 = .ok (2, none) :=
  parseColor_boundaries 255 (by decide)

/-! ## The claims on `parseHeader` -/

/-- C6: on a stream with no line at all `parseHeader` returns `(0, 0, 0)` with a nil error,
and `convert` goes on to create the destination and to call the encoder on an empty image. -/
theorem parseHeader_empty_stream :
    NewScanner [] = [] ∧
    parseHeader [] = ⟨0, 0, 0, none, []⟩ ∧
    convert (some []) true = .ok [.create, .encode ⟨[], 0, ⟨0, 0, 0, 0⟩⟩] := by
  decide

/-- C7: with a dimensions line of one token, or of three, `parseHeader` returns `(0, 0, 0)`
with a nil error, whatever follows; `convert` then goes on to create the destination. -/
theorem parseHeader_bad_dimensions :
    (∀ rest : Scanner, parseHeader (str "P3" :: str "2" :: rest) = ⟨0, 0, 0, none, rest⟩) ∧
    (∀ rest : Scanner,
      parseHeader (str "P3" :: str "2 1 5" :: rest) = ⟨0, 0, 0, none, rest⟩) ∧
    convert (some (str "P3\n2\n255\n")) true
      = .ok [.create, .encode ⟨[], 0, ⟨0, 0, 0, 0⟩⟩] := by
  have hP3 : (str "P3" ≠ fileHeader) = False := by simp [fileHeader]
  have h1 : Split (str "2") 32 = [str "2"] := by decide
  have h3 : Split (str "2 1 5") 32 = [str "2", str "1", str "5"] := by decide
  refine ⟨?_, ?_, by decide⟩
  · intro rest
    simp only [parseHeader, hP3, if_false, parseHeaderDims, h1]
  · intro rest
    simp only [parseHeader, hP3, if_false, parseHeaderDims, h3]

/-- C8, as stated, fails: the header `P3`, `0 0`, `0` is accepted with a nil error and the
values returned are all `0`. -/
theorem parseHeader_zero_header :
    (parseHeader [str "P3", str "0 0", str "0"]).err = none ∧
    ¬ ((0 : Int) < (parseHeader [str "P3", str "0 0", str "0"]).width ∧
       (0 : Int) < (parseHeader [str "P3", str "0 0", str "0"]).height ∧
       (0 : Int) < (parseHeader [str "P3", str "0 0", str "0"]).maxVal) := by
  decide

/-- C8, amended: for every input whose first line is `P3`, whose second line splits into two
tokens and which has a third line, if `parseHeader` returns a nil error then the width, height
and maxChannelValue it returns are the integers `strconv.Atoi` reads from the two tokens and
from the third line; so they are all strictly greater than 0 exactly when those integers are. -/
theorem parseHeader_nil_err_values (dims maxLine t0 t1 : GoString) (pixels : Scanner)
    (hsplit : Split dims 32 = [t0, t1])
    (hnil : (parseHeader (str "P3" :: dims :: maxLine :: pixels)).err = none) :
    Atoi t0 = .ok (parseHeader (str "P3" :: dims :: maxLine :: pixels)).width ∧
    Atoi t1 = .ok (parseHeader (str "P3" :: dims :: maxLine :: pixels)).height ∧
    Atoi maxLine = .ok (parseHeader (str "P3" :: dims :: maxLine :: pixels)).maxVal ∧
    ((0 < (parseHeader (str "P3" :: dims :: maxLine :: pixels)).width ∧
      0 < (parseHeader (str "P3" :: dims :: maxLine :: pixels)).height ∧
      0 < (parseHeader (str "P3" :: dims :: maxLine :: pixels)).maxVal) ↔
     ∃ w h m : Int, Atoi t0 = .ok w ∧ Atoi t1 = .ok h ∧ Atoi maxLine = .ok m ∧
       0 < w ∧ 0 < h ∧ 0 < m) := by
  have hP3 : (str "P3" ≠ fileHeader) = False := by simp [fileHeader]
  simp only [parseHeader, hP3, if_false, parseHeaderDims, hsplit] at hnil ⊢
  cases h0 : Atoi t0 with
  | error e => simp [h0] at hnil
  | ok w =>
    cases h1 : Atoi t1 with
    | error e => simp [h0, h1] at hnil
    | ok h =>
      cases h2 : Atoi maxLine with
      | error e => simp [h0, h1, h2, parseHeaderMaxVal] at hnil
      | ok m => simp [parseHeaderMaxVal, h2]

theorem parseHeader_nil_err_values_witness :
    Atoi (str "2") = .ok (parseHeader (str "P3" :: str "2 1" :: str "255" :: [])).width ∧
    Atoi (str "1") = .ok (parseHeader (str "P3" :: str "2 1" :: str "255" :: [])).height ∧
    Atoi (str "255") = .ok (parseHeader (str "P3" :: str "2 1" :: str "255" :: [])).maxVal ∧
    ((0 < (parseHeader (str "P3" :: str "2 1" :: str "255" :: [])).width ∧
      0 < (parseHeader (str "P3" :: str "2 1" :: str "255" :: [])).height ∧
      0 < (parseHeader (str "P3" :: str "2 1" :: str "255" :: [])).maxVal) ↔
     ∃ w h m : Int, Atoi (str "2") = .ok w ∧ Atoi (str "1") = .ok h ∧
       Atoi (str "255") = .ok m ∧ 0 < w ∧ 0 < h ∧ 0 < m) :=
  parseHeader_nil_err_values (str "2 1") (str "255") (str "2") (str "1") [] (by decide)
    (by decide)

/-- C9: for every input whose first three lines are `P3`, `W H` (two tokens that
`strconv.Atoi` reads as `W` and `H`, separated by one space) and `M` (read as `M`),
`parseHeader` returns `(W, H, M)` in that order with a nil error, and leaves the scanner at
the first pixel line. -/
theorem parseHeader_result (tw th tm : GoString) (W H M : Int) (pixels : Scanner)
    (hW : Atoi tw = .ok W) (hH : Atoi th = .ok H) (hM : Atoi tm = .ok M) :
    parseHeader (str "P3" :: (tw ++ str " " ++ th) :: tm :: pixels)
      = ⟨W, H, M, none, pixels⟩ :=
  parseHeader_of_tokens tw th tm W H M pixels hW hH hM

theorem parseHeader_result_witness :
    parseHeader (str "P3" :: (str "2" ++ str " " ++ str "1") :: str "255" ::
        [str "255 0 0", str "0 255 0"])
      = ⟨2, 1, 255, none, [str "255 0 0", str "0 255 0"]⟩ :=
  parseHeader_result (str "2") (str "1") (str "255") 2 1 255 [str "255 0 0", str "0 255 0"]
    (by decide) (by decide) (by decide)

/-- What `convert` does once the results of its three calls are known. -/
theorem convert_of_results (content : GoString) (w h m : Int) (rest : Scanner) (img : RGBA)
    (res : ColorsResult) (hhdr : parseHeader (NewScanner content) = ⟨w, h, m, none, rest⟩)
    (hnew : NewRGBA (Rect 0 0 w h) = .ok img) (hcol : parseColors rest img.Pix m = .ok res) :
    convert (some content) true = .ok [.create, .encode { img with Pix := res.Pix }] := by
  simp [convert, hhdr, hnew, hcol]

/-- A file made of one line `1 z` that fills the buffer of the scanner, `z` being a token of
zeros: the first `Scan()` fails, the second yields the line, which is read as the dimensions
`1` and `0`. -/
theorem parseHeader_of_long_first_line (z : GoString) (hz10 : 10 ∉ z) (hz32 : 32 ∉ z)
    (hzlast : z.getLast? = some 48) (hz : Atoi z = .ok 0)
    (hlen : (str "1 " ++ z).length = maxScanTokenSize) :
    rawLines (str "1 " ++ z) = [str "1 " ++ z] ∧
    NewScanner (str "1 " ++ z) = [none, some (str "1 " ++ z)] ∧
    parseHeader (NewScanner (str "1 " ++ z)) = ⟨1, 0, 0, none, []⟩ := by
  have h10 : 10 ∉ str "1 " ++ z := by
    have h : 10 ∉ str "1 " := by decide
    simp [h, hz10]
  have hne : str "1 " ++ z ≠ [] := by
    intro h
    rw [h] at hlen
    simp [maxScanTokenSize] at hlen
  have hraw := rawLines_of_no_newline _ h10 hne
  have hcr : dropCR (str "1 " ++ z) = str "1 " ++ z := by
    apply dropCR_of_getLast
    rw [List.getLast?_append, hzlast]
    simp
  have hscan : NewScanner (str "1 " ++ z) = [none, some (str "1 " ++ z)] := by
    rw [NewScanner, hraw, scanLines_long _ _ (by omega),
      List.take_of_length_le (by omega), hcr]
  have hsplit : Split (str "1 " ++ z) 32 = [str "1", z] := by
    have e : str "1 " ++ z = str "1" ++ 32 :: z := by
      have e1 : str "1 " = str "1" ++ [32] := by decide
      rw [e1, List.append_assoc]
      rfl
    rw [e, Split_append_sep _ _ 32 (by decide), Split_of_not_mem _ 32 hz32]
  have h1 : Atoi (str "1") = .ok 1 := by decide
  refine ⟨hraw, hscan, ?_⟩
  rw [hscan]
  simp only [parseHeader, parseHeaderDims, hsplit, h1, hz, parseHeaderMaxVal]

/-- C5, as stated, fails: the file `longFirstLine` has one line, of 65536 bytes, which is not
`P3`.  The first `Scan()` returns false and the test of the magic line is skipped; the next
`Scan()` yields the line, which is read as the dimensions `1` and `0`; `parseHeader` returns
`(1, 0, 0)` with a nil error and `convert` creates the destination. -/
theorem long_first_line_accepted :
    rawLines longFirstLine = [longFirstLine] ∧
    longFirstLine.length = 65536 ∧
    longFirstLine ≠ str "P3" ∧
    NewScanner longFirstLine = [none, some longFirstLine] ∧
    parseHeader (NewScanner longFirstLine) = ⟨1, 0, 0, none, []⟩ ∧
    convert (some longFirstLine) true = .ok [.create, .encode ⟨[], 4, ⟨0, 0, 1, 0⟩⟩] := by
  have h2 : (str "1 ").length = 2 := by decide
  have hlen : longFirstLine.length = 65536 := by
    rw [longFirstLine, List.length_append, List.length_replicate, h2]
  have hP3 : longFirstLine ≠ str "P3" := by
    intro h
    have hl := congrArg List.length h
    have hp : (str "P3").length = 2 := by decide
    rw [hlen, hp] at hl
    omega
  have hmem : ∀ b : Nat, b ≠ 48 → b ∉ List.replicate 65534 48 :=
    fun b hb h => hb (List.eq_of_mem_replicate h)
  have hlast : (List.replicate 65534 48).getLast? = some 48 := by
    rw [List.getLast?_replicate, if_neg (by decide)]
  obtain ⟨hraw, hscan, hhdr⟩ := parseHeader_of_long_first_line (List.replicate 65534 48)
    (hmem 10 (by decide)) (hmem 32 (by decide)) hlast (Atoi_zeros 65533) hlen
  have hnew : NewRGBA (Rect 0 0 1 0) = .ok ⟨[], 4, ⟨0, 0, 1, 0⟩⟩ := by decide
  have hcol : parseColors [] [] 0 = .ok ⟨none, [], []⟩ := rfl
  exact ⟨hraw, hlen, hP3, hscan, hhdr,
    convert_of_results longFirstLine 1 0 0 [] _ _ hhdr hnew hcol⟩

/-- The scanner yields a first line that is shorter than its buffer. -/
theorem NewScanner_first_line (content line : GoString) (more : List GoString)
    (hraw : rawLines content = line :: more) (hshort : line.length < maxScanTokenSize) :
    NewScanner content = some (dropCR line) :: scanLines more := by
  rw [NewScanner, hraw, scanLines_short line more hshort]

/-- C5, amended: for every input whose first line is shorter than 65536 bytes and, without its
trailing carriage return, is not exactly `P3`, `parseHeader` returns a non-nil error, and
`convert` returns having neither created the destination file nor called the encoder. -/
theorem bad_magic_rejected (content line : GoString) (more : List GoString) (canCreate : Bool)
    (hraw : rawLines content = line :: more) (hshort : line.length < maxScanTokenSize)
    (hbad : dropCR line ≠ str "P3") :
    (parseHeader (NewScanner content)).err ≠ none ∧
    convert (some content) canCreate = .ok [] := by
  have hne : dropCR line ≠ fileHeader := hbad
  have herr : (parseHeader (NewScanner content)).err = some .invalidHeader := by
    simp [parseHeader, NewScanner_first_line content line more hraw hshort, hne]
  constructor
  · simp [herr]
  · simp [convert, herr]

theorem bad_magic_rejected_witness :
    (parseHeader (NewScanner (str "P6\n1 1\n255\n"))).err ≠ none ∧
    convert (some (str "P6\n1 1\n255\n")) true = .ok [] :=
  bad_magic_rejected (str "P6\n1 1\n255\n") (str "P6") [str "1 1", str "255"] true
    (by decide) (by decide) (by decide)

/-! ## The claims on `parseColors` and `convert` -/

/-- The scanner on a file whose lines, all shorter than the buffer, are a header and
well-formed pixel lines: it yields them as they are. -/
theorem NewScanner_wellFormed (content tw th tm : GoString) (W H M : Int)
    (px : List PixelLine)
    (hraw : rawLines content
      = str "P3" :: (tw ++ str " " ++ th) :: tm :: px.map PixelLine.text)
    (hshort : ∀ l ∈ rawLines content, l.length < maxScanTokenSize)
    (_hW : Atoi tw = .ok W) (hH : Atoi th = .ok H) (hM : Atoi tm = .ok M)
    (hreads : ∀ p ∈ px, p.Reads) :
    NewScanner content
      = some (str "P3") :: some (tw ++ str " " ++ th) :: some tm
          :: (px.map PixelLine.text).map some := by
  have hall : ∀ l ∈ rawLines content, l.length < maxScanTokenSize ∧ dropCR l = l := by
    intro l hl
    refine ⟨hshort l hl, ?_⟩
    rw [hraw] at hl
    simp only [List.mem_cons, List.mem_map] at hl
    rcases hl with rfl | rfl | rfl | ⟨p, hp, rfl⟩
    · decide
    · exact dropCR_append_token _ th H hH
    · exact dropCR_append_token [] l M hM
    · exact dropCR_append_token _ p.tokB p.b (hreads p hp).2.2
  rw [NewScanner, scanLines_of_short _ hall, hraw]
  rfl

/-- The header `parseHeader` reads from such a file, and the scanner it leaves. -/
theorem parseHeader_of_file (content tw th tm : GoString) (W H M : Int)
    (px : List PixelLine)
    (hraw : rawLines content
      = str "P3" :: (tw ++ str " " ++ th) :: tm :: px.map PixelLine.text)
    (hshort : ∀ l ∈ rawLines content, l.length < maxScanTokenSize)
    (hW : Atoi tw = .ok W) (hH : Atoi th = .ok H) (hM : Atoi tm = .ok M)
    (hreads : ∀ p ∈ px, p.Reads) :
    parseHeader (NewScanner content)
      = ⟨W, H, M, none, (px.map PixelLine.text).map some⟩ := by
  rw [NewScanner_wellFormed content tw th tm W H M px hraw hshort hW hH hM hreads]
  exact parseHeader_of_tokens tw th tm W H M ((px.map PixelLine.text).map some) hW hH hM

/-- C3, as stated, fails: the lines of `longPixelFile` are `P3`, `1 1`, `255` and one pixel
line of three integers, `0 0 0` with the first written with 65536 zeros.  `Scan()` returns
false on that line, `parseColors` returns without decoding it, and the encoder is handed the
buffer `[0, 0, 0, 0]`, whose alpha byte is `0`, not `[0, 0, 0, 255]`. -/
theorem convert_long_pixel_line :
    rawLines longPixelFile
      = [str "P3", str "1 1", str "255", List.replicate 65536 48 ++ str " 0 0"] ∧
    Split (List.replicate 65536 48 ++ str " 0 0") 32
      = [List.replicate 65536 48, str "0", str "0"] ∧
    Atoi (List.replicate 65536 48) = .ok 0 ∧
    NewScanner longPixelFile
      = [some (str "P3"), some (str "1 1"), some (str "255"), none,
          some (List.replicate 65536 48)] ∧
    convert (some longPixelFile) true
      = .ok [.create, .encode ⟨[0, 0, 0, 0], 4, ⟨0, 0, 1, 1⟩⟩] := by
  have hmem : ∀ b : Nat, b ≠ 48 → b ∉ List.replicate 65536 48 :=
    fun b hb h => hb (List.eq_of_mem_replicate h)
  have h10 : 10 ∉ List.replicate 65536 48 ++ str " 0 0" := by
    intro h
    rcases List.mem_append.mp h with h | h
    · exact hmem 10 (by decide) h
    · exact absurd h (by decide)
  have e : longPixelFile
      = str "P3" ++ 10 :: (str "1 1" ++ 10 :: (str "255" ++ 10 ::
          ((List.replicate 65536 48 ++ str " 0 0") ++ 10 :: []))) := by
    have e1 : str "P3\n1 1\n255\n"
        = str "P3" ++ 10 :: (str "1 1" ++ 10 :: (str "255" ++ [10])) := by decide
    have e2 : str " 0 0\n" = str " 0 0" ++ [10] := by decide
    rw [longPixelFile, e1, e2]
    simp only [List.append_assoc, List.cons_append, List.nil_append]
  have hraw : rawLines longPixelFile
      = [str "P3", str "1 1", str "255", List.replicate 65536 48 ++ str " 0 0"] := by
    have hnil : rawLines [] = [] := by decide
    rw [e, rawLines_append_newline _ _ (by decide), rawLines_append_newline _ _ (by decide),
      rawLines_append_newline _ _ (by decide), rawLines_append_newline _ _ h10, hnil]
  have hsplit : Split (List.replicate 65536 48 ++ str " 0 0") 32
      = [List.replicate 65536 48, str "0", str "0"] := by
    have e3 : str " 0 0" = 32 :: str "0 0" := by decide
    have e4 : Split (str "0 0") 32 = [str "0", str "0"] := by decide
    rw [e3, Split_append_sep _ _ 32 (hmem 32 (by decide)), e4]
  have hlong : maxScanTokenSize ≤ (List.replicate 65536 48 ++ str " 0 0").length := by
    rw [List.length_append, List.length_replicate]
    unfold maxScanTokenSize
    omega
  have hcr : dropCR (List.replicate 65536 48) = List.replicate 65536 48 := by
    apply dropCR_of_getLast
    rw [List.getLast?_replicate, if_neg (by decide)]
    decide
  have hscan : NewScanner longPixelFile
      = [some (str "P3"), some (str "1 1"), some (str "255"), none,
          some (List.replicate 65536 48)] := by
    have s1 : dropCR (str "P3") = str "P3" := by decide
    have s2 : dropCR (str "1 1") = str "1 1" := by decide
    have s3 : dropCR (str "255") = str "255" := by decide
    rw [NewScanner, hraw, scanLines_short _ _ (by decide), scanLines_short _ _ (by decide),
      scanLines_short _ _ (by decide), scanLines_long _ _ hlong,
      List.take_left' (by rw [List.length_replicate]; rfl), s1, s2, s3, hcr]
  have hdims : str "1 1" = str "1" ++ str " " ++ str "1" := by decide
  have hhdr : parseHeader (NewScanner longPixelFile)
      = ⟨1, 1, 255, none, [none, some (List.replicate 65536 48)]⟩ := by
    rw [hscan, hdims]
    exact parseHeader_of_tokens (str "1") (str "1") (str "255") 1 1 255 _ (by decide)
      (by decide) (by decide)
  have hnew : NewRGBA (Rect 0 0 1 1) = .ok ⟨[0, 0, 0, 0], 4, ⟨0, 0, 1, 1⟩⟩ := by decide
  have hcol : parseColors [none, some (List.replicate 65536 48)] [0, 0, 0, 0] 255
      = .ok ⟨none, [0, 0, 0, 0], [some (List.replicate 65536 48)]⟩ := rfl
  exact ⟨hraw, hsplit, Atoi_zeros 65535, hscan,
    convert_of_results longPixelFile 1 1 255 _ _ _ hhdr hnew hcol⟩

/-- C3, amended: for every input whose lines, each shorter than 65536 bytes, are `P3`, `W H`,
`M` (tokens read as positive integers) followed by exactly `W * H` pixel lines, each of three
single-space-separated tokens read as integers in `[0, M]`, with `W * H * 4` within the
allocation limit, `convert` creates the destination and hands the encoder a `W` by `H` image
whose buffer has length `W * H * 4`, pixel `k` of which holds the `parseColor` bytes of the
`R`, `G`, `B` of pixel line `k` followed by the alpha byte `255`; when `M * 255` is within the
range of `int` those bytes are `⌊v * 255 / M⌋`. -/
theorem convert_valid_input (content tw th tm : GoString) (W H M : Int) (px : List PixelLine)
    (hraw : rawLines content
      = str "P3" :: (tw ++ str " " ++ th) :: tm :: px.map PixelLine.text)
    (hshort : ∀ l ∈ rawLines content, l.length < maxScanTokenSize)
    (hW : Atoi tw = .ok W) (hH : Atoi th = .ok H) (hM : Atoi tm = .ok M)
    (hWpos : 0 < W) (hHpos : 0 < H) (hMpos : 0 < M)
    (hcount : (px.length : Int) = W * H) (hsize : 4 * (W * H) ≤ maxAlloc)
    (hpx : ∀ p ∈ px, p.Reads ∧ p.InRange M) :
    convert (some content) true
      = .ok [.create, .encode ⟨pixelBytes M px, 4 * W, ⟨0, 0, W, H⟩⟩] ∧
    ((pixelBytes M px).length : Int) = W * H * 4 ∧
    (∀ k p, px[k]? = some p →
      (pixelBytes M px)[4 * k]? = some (scale p.r M) ∧
      (pixelBytes M px)[4 * k + 1]? = some (scale p.g M) ∧
      (pixelBytes M px)[4 * k + 2]? = some (scale p.b M) ∧
      (pixelBytes M px)[4 * k + 3]? = some 255) ∧
    (M * 255 ≤ maxInt → ∀ p ∈ px,
      (scale p.r M : Int) = p.r * 255 / M ∧
      (scale p.g M : Int) = p.g * 255 / M ∧
      (scale p.b M : Int) = p.b * 255 / M) := by
  have hhdr := parseHeader_of_file content tw th tm W H M px hraw hshort hW hH hM
    (fun p hp => (hpx p hp).1)
  have hn : (W * H).toNat = px.length := by omega
  have hnew := NewRGBA_of_pos W H hWpos hHpos hsize
  rw [hn] at hnew
  have hcol := parseColors_wellFormed M (by omega) px (fun p hp => (hpx p hp).1)
  refine ⟨?_, ?_, ?_, ?_⟩
  · exact convert_of_results content W H M _ _ _ hhdr hnew hcol
  · rw [pixelBytes_length]
    push_cast
    omega
  · intro k p hk
    exact pixelBytes_getElem M px k p hk
  · intro hrange p hp
    obtain ⟨_, ⟨hr0, hr1⟩, ⟨hg0, hg1⟩, ⟨hb0, hb1⟩⟩ := hpx p hp
    exact ⟨scale_of_inRange _ _ hMpos hr0 hr1 hrange,
      scale_of_inRange _ _ hMpos hg0 hg1 hrange,
      scale_of_inRange _ _ hMpos hb0 hb1 hrange⟩

theorem convert_valid_input_witness :
    rawLines exampleFile
      = str "P3" :: (str "2" ++ str " " ++ str "1") :: str "255"
          :: examplePixels.map PixelLine.text ∧
    convert (some exampleFile) true
      = .ok [.create, .encode ⟨[255, 0, 0, 255, 0, 255, 0, 255], 8, ⟨0, 0, 2, 1⟩⟩] :=
  ⟨by decide,
   (convert_valid_input exampleFile (str "2") (str "1") (str "255") 2 1 255 examplePixels
      (by decide) (by decide) (by decide) (by decide) (by decide) (by decide) (by decide)
      (by decide) (by decide) (by decide) (by decide)).1⟩

/-- C4: a pixel line with a token that is no integer makes `parseColors` return a non-nil
error, and a pixel line of two tokens makes it stop; in both cases `convert` goes on to
create the destination file and to call the encoder. -/
theorem convert_ignores_decode_failure :
    parseColors [str "x 0 0"] [0, 0, 0, 0] 255 = .ok ⟨some .numError, [0, 0, 0, 0], []⟩ ∧
    convert (some (str "P3\n1 1\n255\nx 0 0\n")) true
      = .ok [.create, .encode ⟨[0, 0, 0, 0], 4, ⟨0, 0, 1, 1⟩⟩] ∧
    convert (some (str "P3\n1 1\n255\n7 7\n")) true
      = .ok [.create, .encode ⟨[0, 0, 0, 0], 4, ⟨0, 0, 1, 1⟩⟩] := by
  decide

/-- C10: on a line of two tokens, or of four, `parseColors` stops at that line, with the
buffer and the later lines untouched, and the error it returns is nil. -/
theorem parseColors_bad_token_count :
    (∀ (rest : Scanner) (pix : List Nat) (m : Int),
      parseColors (str "1 2" :: rest) pix m = .ok ⟨none, pix, rest⟩) ∧
    (∀ (rest : Scanner) (pix : List Nat) (m : Int),
      parseColors (str "1 2 3 4" :: rest) pix m = .ok ⟨none, pix, rest⟩) ∧
    parseColors [str "9 9 9", str "1 2", str "3 4 5"] [0, 0, 0, 0, 0, 0, 0, 0] 9
      = .ok ⟨none, [255, 255, 255, 255, 0, 0, 0, 0], [str "3 4 5"]⟩ := by
  have h2 : Split (str "1 2") 32 = [str "1", str "2"] := by decide
  have h4 : Split (str "1 2 3 4") 32 = [str "1", str "2", str "3", str "4"] := by decide
  refine ⟨?_, ?_, by decide⟩
  · intro rest pix m
    simp only [parseColors, parseColorsLoop, h2]
  · intro rest pix m
    simp only [parseColors, parseColorsLoop, h4]

/-! ## The output name -/

theorem TrimSuffix_append (t suffix : GoString) : TrimSuffix (t ++ suffix) suffix = t := by
  simp [TrimSuffix, HasSuffix]

theorem TrimSuffix_of_not_suffix (s suffix : GoString) (h : ¬ ∃ t, s = t ++ suffix) :
    TrimSuffix s suffix = s := by
  have hs : HasSuffix s suffix = false := by
    cases hs : HasSuffix s suffix
    · rfl
    · exfalso
      simp only [HasSuffix, Bool.and_eq_true, decide_eq_true_eq] at hs
      apply h
      refine ⟨s.take (s.length - suffix.length), ?_⟩
      conv_lhs => rw [← List.take_append_drop (s.length - suffix.length) s]
      rw [hs.2]
  simp [TrimSuffix, hs]

/-- A name whose last byte is not the last byte of `suffix` does not end with `suffix`. -/
theorem not_endsWith_of_getLast (s suffix : GoString) (x : Nat)
    (hx : suffix.getLast? = some x) (h : s.getLast? ≠ some x) : ¬ ∃ t, s = t ++ suffix := by
  rintro ⟨t, rfl⟩
  apply h
  rw [List.getLast?_append, hx]
  rfl

theorem outputName_append_ppm (t : GoString) : outputName (t ++ str ".ppm") = t ++ str ".png" := by
  rw [outputName, TrimSuffix_append]

theorem outputName_of_not_ppm (s : GoString) (h : ¬ ∃ t, s = t ++ str ".ppm") :
    outputName s = s ++ str ".png" := by
  rw [outputName, TrimSuffix_of_not_suffix s _ h]

/-- C15: for every entry name `s`, the destination file name is `s` with one trailing `.ppm`
removed, followed by `.png`, when `s` ends with `.ppm`; and it is `s`, unmodified, followed by
`.png` when `s` does not end with `.ppm`. -/
theorem outputName_spec (s : GoString) :
    (∀ t, s = t ++ str ".ppm" → outputName s = t ++ str ".png") ∧
    ((¬ ∃ t, s = t ++ str ".ppm") → outputName s = s ++ str ".png") := by
  constructor
  · rintro t rfl
    exact outputName_append_ppm t
  · exact outputName_of_not_ppm s

theorem outputName_spec_witness :
    outputName (str "img.ppm.ppm") = str "img.ppm" ++ str ".png" ∧
    outputName (str "notes.txt") = str "notes.txt" ++ str ".png" :=
  ⟨(outputName_spec (str "img.ppm.ppm")).1 (str "img.ppm") (by decide),
   (outputName_spec (str "notes.txt")).2
     (not_endsWith_of_getLast _ _ 109 (by decide) (by decide))⟩

/-- C16, as stated, fails: the entry name `name.txt` is not mapped to `name.png`. -/
theorem outputName_txt_not_png :
    outputName (str "name.txt") ≠ str "name.png" := by
  decide

/-- C16, amended: the entry name `name.ppm` maps to the destination `name.png`, and the entry
name `name.txt` maps to the destination `name.txt.png`. -/
theorem outputName_examples :
    outputName (str "name.ppm") = str "name.png" ∧
    outputName (str "name.txt") = str "name.txt.png" := by
  decide

/-- C20, as stated, fails in its general form: for `s = a.ppm`, the names `s` and `s.ppm` are
mapped to `a.png` and `a.ppm.png`, which differ, and `s` is not mapped to `s.png`. -/
theorem outputName_ppm_ppm :
    outputName (str "a.ppm") = str "a.png" ∧
    outputName (str "a.ppm" ++ str ".ppm") = str "a.ppm.png" ∧
    ¬ (outputName (str "a.ppm") = str "a.ppm" ++ str ".png" ∧
       outputName (str "a.ppm" ++ str ".ppm") = str "a.ppm" ++ str ".png") := by
  decide

/-- C20, amended: the mapping of entry names to destination names is not injective: for
every `s` that does not end with `.ppm`, the two distinct names `s` and `s.ppm` are both
mapped to `s.png`; so there are two distinct entry names with the same destination name. -/
theorem outputName_not_injective (s : GoString) (h : ¬ ∃ t, s = t ++ str ".ppm") :
    s ≠ s ++ str ".ppm" ∧
    outputName s = s ++ str ".png" ∧
    outputName (s ++ str ".ppm") = s ++ str ".png" ∧
    ∃ a b : GoString, a ≠ b ∧ outputName a = outputName b := by
  have hne : s ≠ s ++ str ".ppm" := by
    intro e
    have hl := congrArg List.length e
    have h4 : (str ".ppm").length = 4 := by decide
    rw [List.length_append, h4] at hl
    omega
  have h1 := outputName_of_not_ppm s h
  have h2 := outputName_append_ppm s
  exact ⟨hne, h1, h2, s, s ++ str ".ppm", hne, h1.trans h2.symm⟩

theorem outputName_not_injective_witness :
    str "a" ≠ str "a" ++ str ".ppm" ∧
    outputName (str "a") = str "a" ++ str ".png" ∧
    outputName (str "a" ++ str ".ppm") = str "a" ++ str ".png" ∧
    ∃ a b : GoString, a ≠ b ∧ outputName a = outputName b :=
  outputName_not_injective (str "a") (not_endsWith_of_getLast _ _ 109 (by decide) (by decide))

/-! ## Channel values above the maximum -/

/-- C19: for every `maxVal > 0` and every token read as an integer `v ≥ 0` with `v * 255`
within the range of `int`, `parseColor` returns, with a nil error, the byte
`⌊v * 255 / maxVal⌋ mod 256`: a value above `maxVal` wraps around, it is neither clamped nor
rejected.  With `v = 300` and `maxVal = 255` the byte is `44`. -/
theorem parseColor_wraps (color : GoString) (v maxVal : Int) (hmax : 0 < maxVal)
    (htok : Atoi color = .ok v) (h0 : 0 ≤ v) (hrange : v * 255 ≤ maxInt) :
    parseColor color maxVal = .ok ((v * 255 / maxVal % 256).toNat, none) ∧
    parseColor (str "300") 255 = .ok (44, none) := by
  refine ⟨?_, by decide⟩
  have hq0 : 0 ≤ v * 255 / maxVal := Int.ediv_nonneg (by omega) (by omega)
  have hq1 : v * 255 / maxVal ≤ v * 255 := Int.ediv_le_self _ (by omega)
  have hw : wrapInt (v * 255) = v * 255 :=
    wrapInt_of_inRange _ (by unfold minInt; omega) hrange
  have hd : Int.tdiv (v * 255) maxVal = v * 255 / maxVal :=
    Int.tdiv_eq_ediv (by omega) (by omega)
  have hw2 : wrapInt (v * 255 / maxVal) = v * 255 / maxVal :=
    wrapInt_of_inRange _ (by unfold minInt; omega) (by omega)
  have hne : maxVal ≠ 0 := by omega
  simp [parseColor, htok, hne, hw, hd, hw2, toByte]

theorem parseColor_wraps_witness :
    parseColor (str "300") 255 = .ok (((300 : Int) * 255 / 255 % 256).toNat, none) ∧
    parseColor (str "300") 255 = .ok (44, none) :=
  parseColor_wraps (str "300") 300 255 (by decide) (by decide) (by decide) (by decide)

/-! ## The decoding loop, line by line -/

/-- One well-formed line with room for its four bytes: the loop writes them at `row` and goes
on with the next line, four bytes further. -/
theorem parseColorsLoop_cons (m : Int) (hm : m ≠ 0) (p : PixelLine) (hp : p.Reads)
    (rest : Scanner) (pre post : List Nat) (err : Option GoError) (hlen : 4 ≤ post.length) :
    parseColorsLoop m (some p.text :: rest) (pre ++ post) pre.length err
      = parseColorsLoop m rest (pre ++ p.bytes m ++ post.drop 4) (pre.length + 4) none := by
  obtain ⟨a, b, c, d, post1, rfl⟩ :
      ∃ a b c d post1, post = a :: b :: c :: d :: post1 := by
    match post, hlen with
    | a :: b :: c :: d :: post1, _ => exact ⟨a, b, c, d, post1, rfl⟩
    | [], h => simp at h
    | [_], h => simp at h
    | [_, _], h => simp at h
    | [_, _, _], h => simp at h
  obtain ⟨hr, hg, hb⟩ := hp
  have s0 : storeColor (pre ++ a :: b :: c :: d :: post1) pre.length p.tokR m
      = .ok (pre ++ scale p.r m :: b :: c :: d :: post1, none) := by
    rw [storeColor_ok _ _ _ _ _ hm hr (by simp)]
    have := set_append_add pre (a :: b :: c :: d :: post1) 0 (scale p.r m)
    simp only [Nat.add_zero] at this
    rw [this]
    rfl
  have s1 : storeColor (pre ++ scale p.r m :: b :: c :: d :: post1) (pre.length + 1) p.tokG m
      = .ok (pre ++ scale p.r m :: scale p.g m :: c :: d :: post1, none) := by
    rw [storeColor_ok _ _ _ _ _ hm hg (by simp), set_append_add]
    rfl
  have s2 : storeColor (pre ++ scale p.r m :: scale p.g m :: c :: d :: post1)
      (pre.length + 2) p.tokB m
      = .ok (pre ++ scale p.r m :: scale p.g m :: scale p.b m :: d :: post1, none) := by
    rw [storeColor_ok _ _ _ _ _ hm hb (by simp), set_append_add]
    rfl
  have s3 : (pre ++ scale p.r m :: scale p.g m :: scale p.b m :: d :: post1).set
      (pre.length + 3) 255
      = (pre ++ p.bytes m) ++ post1 := by
    rw [set_append_add]
    simp [PixelLine.bytes]
  have hin : pre.length + 3
      < (pre ++ scale p.r m :: scale p.g m :: scale p.b m :: d :: post1).length := by
    simp
  simp only [parseColorsLoop, Split_text p ⟨hr, hg, hb⟩, s0, s1, s2, hin, if_true, s3]
  rfl

/-- A run of well-formed lines with room for them, followed by more lines: the loop writes
the bytes of the run and goes on with the lines that follow. -/
theorem parseColorsLoop_append (m : Int) (hm : m ≠ 0) (px : List PixelLine)
    (hreads : ∀ p ∈ px, p.Reads) (more : Scanner) :
    ∀ (pre post : List Nat), 4 * px.length ≤ post.length →
      parseColorsLoop m ((px.map PixelLine.text).map some ++ more) (pre ++ post) pre.length none
        = parseColorsLoop m more (pre ++ pixelBytes m px ++ post.drop (4 * px.length))
            (pre.length + 4 * px.length) none := by
  induction px with
  | nil =>
    intro pre post _
    simp [pixelBytes]
  | cons p ps ih =>
    intro pre post hlen
    have hp : p.Reads := hreads p (List.mem_cons_self _ _)
    have hps : ∀ q ∈ ps, q.Reads := fun q hq => hreads q (List.mem_cons_of_mem _ hq)
    simp only [List.length_cons] at hlen
    have h4 : 4 ≤ post.length := by omega
    have hlen1 : 4 * ps.length ≤ (post.drop 4).length := by
      rw [List.length_drop]
      omega
    have hrow : pre.length + 4 = (pre ++ p.bytes m).length := by
      simp [PixelLine.bytes]
    rw [List.map_cons, List.map_cons, List.cons_append,
      parseColorsLoop_cons m hm p hp _ pre post none h4,
      hrow, ih hps (pre ++ p.bytes m) (post.drop 4) hlen1]
    have hd : List.drop (4 * ps.length) (List.drop 4 post)
        = List.drop (4 * (ps.length + 1)) post := by
      rw [List.drop_drop]
      congr 1
      omega
    have hr : (pre ++ p.bytes m).length + 4 * ps.length
        = pre.length + 4 * (ps.length + 1) := by
      rw [← hrow]
      omega
    simp only [pixelBytes, List.length_cons, hd, hr, List.append_assoc]

/-- A well-formed line met when the write cursor is at or past the end of the buffer: the
first store fails. -/
theorem parseColorsLoop_past_end (m : Int) (hm : m ≠ 0) (p : PixelLine) (hp : p.Reads)
    (rest : Scanner) (pix : List Nat) (row : Nat) (err : Option GoError)
    (hrow : pix.length ≤ row) :
    storeColor pix row p.tokR m = .error .indexOutOfRange ∧
    parseColorsLoop m (some p.text :: rest) pix row err = .error .indexOutOfRange := by
  have hn : ¬ row < pix.length := by omega
  have hs : storeColor pix row p.tokR m = .error .indexOutOfRange := by
    simp [storeColor, parseColor_ok _ _ _ hm hp.1, hn]
  refine ⟨hs, ?_⟩
  simp only [parseColorsLoop, Split_text p hp, hs]

theorem parseColor_err (color : GoString) (e : GoError) (m : Int)
    (htok : Atoi color = .error e) : parseColor color m = .ok (0, some e) := by
  simp [parseColor, htok]

theorem storeColor_err (pix : List Nat) (i : Nat) (color : GoString) (e : GoError) (m : Int)
    (htok : Atoi color = .error e) (hi : i < pix.length) :
    storeColor pix i color m = .ok (pix.set i 0, some e) := by
  simp [storeColor, parseColor_err color e m htok, hi]

/-- A line of three tokens, one of which `Atoi` rejects, with its slots inside the buffer:
the loop returns the error of the first such token and leaves the later lines unread. -/
theorem parseColorsLoop_bad_token (m : Int) (hm : m ≠ 0) (line t0 t1 t2 : GoString)
    (hsplit : Split line 32 = [t0, t1, t2])
    (hbad : ∃ t ∈ [t0, t1, t2], ∀ v, Atoi t ≠ .ok v)
    (rest : Scanner) (pix : List Nat) (row : Nat) (err : Option GoError)
    (hroom : row + 2 < pix.length) :
    ∃ e pix1, parseColorsLoop m (some line :: rest) pix row err = .ok ⟨some e, pix1, rest⟩ ∧
      pix1.length = pix.length := by
  simp only [parseColorsLoop, hsplit]
  cases h0 : Atoi t0 with
  | error e =>
    refine ⟨e, pix.set row 0, ?_, by simp⟩
    simp only [storeColor_err pix row t0 e m h0 (by omega)]
  | ok v0 =>
    simp only [storeColor_ok pix row t0 v0 m hm h0 (by omega)]
    cases h1 : Atoi t1 with
    | error e =>
      refine ⟨e, (pix.set row (scale v0 m)).set (row + 1) 0, ?_, by simp⟩
      simp only [storeColor_err (pix.set row (scale v0 m)) (row + 1) t1 e m h1 (by simp; omega)]
    | ok v1 =>
      simp only [storeColor_ok (pix.set row (scale v0 m)) (row + 1) t1 v1 m hm h1
        (by simp; omega)]
      cases h2 : Atoi t2 with
      | error e =>
        refine ⟨e, ((pix.set row (scale v0 m)).set (row + 1) (scale v1 m)).set (row + 2) 0,
          ?_, by simp⟩
        simp only [storeColor_err ((pix.set row (scale v0 m)).set (row + 1) (scale v1 m)) (row + 2)
          t2 e m h2 (by simp; omega)]
      | ok v2 =>
        exfalso
        obtain ⟨t, ht, hno⟩ := hbad
        simp only [List.mem_cons, List.mem_singleton, List.not_mem_nil, or_false] at ht
        rcases ht with rfl | rfl | rfl
        · exact hno v0 h0
        · exact hno v1 h1
        · exact hno v2 h2

/-! ## The buffer after decoding -/

/-- What `parseColors` leaves in a buffer with room for the well-formed lines it is given. -/
theorem parseColors_of_room (m : Int) (hm : m ≠ 0) (buf : List Nat) (px : List PixelLine)
    (hreads : ∀ p ∈ px, p.Reads) (hroom : 4 * px.length ≤ buf.length) :
    parseColors ((px.map PixelLine.text).map some) buf m
      = .ok ⟨none, pixelBytes m px ++ buf.drop (4 * px.length), []⟩ := by
  have h := parseColorsLoop_wellFormed m hm px hreads [] buf none hroom
  simpa [parseColors] using h

theorem getElem?_lt_length (px : List PixelLine) (k : Nat) (p : PixelLine)
    (hk : px[k]? = some p) : k < px.length := by
  by_contra hc
  rw [List.getElem?_eq_none (by omega)] at hk
  cases hk

/-- The bytes of line `k` in a buffer that starts with the bytes of the lines. -/
theorem pixelBytes_append_getElem (m : Int) (px : List PixelLine) (tail : List Nat) (k : Nat)
    (p : PixelLine) (hk : px[k]? = some p) :
    (pixelBytes m px ++ tail)[4 * k]? = some (scale p.r m) ∧
    (pixelBytes m px ++ tail)[4 * k + 1]? = some (scale p.g m) ∧
    (pixelBytes m px ++ tail)[4 * k + 2]? = some (scale p.b m) ∧
    (pixelBytes m px ++ tail)[4 * k + 3]? = some 255 := by
  have hlt := getElem?_lt_length px k p hk
  have hl := pixelBytes_length m px
  obtain ⟨h0, h1, h2, h3⟩ := pixelBytes_getElem m px k p hk
  rw [List.getElem?_append_left (by omega), List.getElem?_append_left (by omega),
    List.getElem?_append_left (by omega), List.getElem?_append_left (by omega)]
  exact ⟨h0, h1, h2, h3⟩

/-- Past the bytes of the lines the buffer is as it was. -/
theorem pixelBytes_append_drop_getElem (m : Int) (px : List PixelLine) (buf : List Nat)
    (i : Nat) (hi : 4 * px.length ≤ i) :
    (pixelBytes m px ++ buf.drop (4 * px.length))[i]? = buf[i]? := by
  have hl := pixelBytes_length m px
  rw [List.getElem?_append_right (by omega), hl, List.getElem?_drop]
  congr 1
  omega

/-! ## The claims on the decoding loop -/

/-- C11, as stated, fails: a line with a token that is no integer, met when the buffer has no
room left for it, ends `parseColors` in an index-out-of-range panic, not in an error. -/
theorem parseColors_bad_token_past_end :
    parseColor (str "x") 255 = .ok (0, some .numError) ∧
    parseColors [str "x 0 0"] [] 255 = .error .indexOutOfRange ∧
    convert (some (str "P3\n1 1\n255\n0 0 0\nx 0 0\n")) true = .error .indexOutOfRange := by
  decide

/-- C11, amended: for every `maxVal > 0`, `parseColor` returns an error for every token that
is no decimal integer; and for every pixel line of three tokens, at least one of which is no
decimal integer, that comes after well-formed lines and whose four slots lie inside the
buffer, `parseColors` returns a non-nil error and leaves every later line unread. -/
theorem parseColors_bad_token (m : Int) (hm : 0 < m) (px : List PixelLine)
    (hreads : ∀ p ∈ px, p.Reads) (line t0 t1 t2 : GoString)
    (hsplit : Split line 32 = [t0, t1, t2])
    (hbad : ∃ t ∈ [t0, t1, t2], ∀ v, Atoi t ≠ .ok v)
    (later : Scanner) (pix : List Nat) (hroom : 4 * (px.length + 1) ≤ pix.length) :
    (∀ t, (∀ v, Atoi t ≠ .ok v) → ∃ e, parseColor t m = .ok (0, some e)) ∧
    ∃ e pix1, parseColors ((px.map PixelLine.text).map some ++ some line :: later) pix m
      = .ok ⟨some e, pix1, later⟩ := by
  have hm0 : m ≠ 0 := by omega
  constructor
  · intro t ht
    cases h : Atoi t with
    | error e => exact ⟨e, parseColor_err t e m h⟩
    | ok v => exact absurd h (ht v)
  · have happ := parseColorsLoop_append m hm0 px hreads (line :: later) [] pix (by omega)
    simp only [List.nil_append, List.length_nil, Nat.zero_add] at happ
    have hl := pixelBytes_length m px
    obtain ⟨e, pix1, h, _⟩ := parseColorsLoop_bad_token m hm0 line t0 t1 t2 hsplit hbad later
      (pixelBytes m px ++ pix.drop (4 * px.length)) (4 * px.length) none
      (by rw [List.length_append, hl, List.length_drop]; omega)
    exact ⟨e, pix1, by rw [parseColors, happ, h]⟩

theorem parseColors_bad_token_witness :
    (∀ t, (∀ v, Atoi t ≠ .ok v) → ∃ e, parseColor t 255 = .ok (0, some e)) ∧
    ∃ e pix1, parseColors
        ([⟨str "9", str "8", str "7", 9, 8, 7⟩].map PixelLine.text
          ++ str "0 x 0" :: [str "1 1 1"])
        [0, 0, 0, 0, 0, 0, 0, 0] 255
      = .ok ⟨some e, pix1, [str "1 1 1"]⟩ :=
  parseColors_bad_token 255 (by decide) [⟨str "9", str "8", str "7", 9, 8, 7⟩] (by decide)
    (str "0 x 0") (str "0") (str "x") (str "0") (by decide)
    ⟨str "x", by decide, fun v h => by
      rw [show Atoi (str "x") = .error .numError from by decide] at h
      cases h⟩
    [str "1 1 1"] [0, 0, 0, 0, 0, 0, 0, 0] (by decide)

/-- C12: for every `maxVal > 0`, every buffer and every stream of `n` well-formed pixel lines
with `4 * n` at most the length of the buffer, `parseColors` returns nil having read every
line; the buffer keeps its length, its bytes at `4k`, `4k+1`, `4k+2` are the `parseColor`
bytes of the `R`, `G`, `B` of line `k` and the byte at `4k+3` is `255` for each `k < n`, and
every byte at an index `≥ 4n` is unchanged.  For values in `[0, maxVal]` with `maxVal * 255`
within the range of `int` those bytes are `⌊v * 255 / maxVal⌋`. -/
theorem parseColors_writes (m : Int) (hm : 0 < m) (buf : List Nat) (px : List PixelLine)
    (hreads : ∀ p ∈ px, p.Reads) (hroom : 4 * px.length ≤ buf.length) :
    ∃ pix, parseColors ((px.map PixelLine.text).map some) buf m = .ok ⟨none, pix, []⟩ ∧
      pix.length = buf.length ∧
      (∀ k p, px[k]? = some p →
        pix[4 * k]? = some (scale p.r m) ∧
        pix[4 * k + 1]? = some (scale p.g m) ∧
        pix[4 * k + 2]? = some (scale p.b m) ∧
        pix[4 * k + 3]? = some 255) ∧
      (∀ i, 4 * px.length ≤ i → pix[i]? = buf[i]?) ∧
      (m * 255 ≤ maxInt → ∀ p ∈ px, p.InRange m →
        (scale p.r m : Int) = p.r * 255 / m ∧
        (scale p.g m : Int) = p.g * 255 / m ∧
        (scale p.b m : Int) = p.b * 255 / m) := by
  refine ⟨pixelBytes m px ++ buf.drop (4 * px.length),
    parseColors_of_room m (by omega) buf px hreads hroom, ?_, ?_, ?_, ?_⟩
  · rw [List.length_append, pixelBytes_length, List.length_drop]
    omega
  · intro k p hk
    exact pixelBytes_append_getElem m px _ k p hk
  · intro i hi
    exact pixelBytes_append_drop_getElem m px buf i hi
  · intro hrange p _ hin
    obtain ⟨⟨hr0, hr1⟩, ⟨hg0, hg1⟩, ⟨hb0, hb1⟩⟩ := hin
    exact ⟨scale_of_inRange _ _ hm hr0 hr1 hrange, scale_of_inRange _ _ hm hg0 hg1 hrange,
      scale_of_inRange _ _ hm hb0 hb1 hrange⟩

theorem parseColors_writes_witness :
    ∃ pix, parseColors ((examplePixels.map PixelLine.text).map some)
          [7, 7, 7, 7, 7, 7, 7, 7, 7, 7] 255
        = .ok ⟨none, pix, []⟩ ∧
      pix.length = [7, 7, 7, 7, 7, 7, 7, 7, 7, 7].length ∧
      (∀ k p, examplePixels[k]? = some p →
        pix[4 * k]? = some (scale p.r 255) ∧
        pix[4 * k + 1]? = some (scale p.g 255) ∧
        pix[4 * k + 2]? = some (scale p.b 255) ∧
        pix[4 * k + 3]? = some 255) ∧
      (∀ i, 4 * examplePixels.length ≤ i → pix[i]? = [7, 7, 7, 7, 7, 7, 7, 7, 7, 7][i]?) ∧
      ((255 : Int) * 255 ≤ maxInt → ∀ p ∈ examplePixels, p.InRange 255 →
        (scale p.r 255 : Int) = p.r * 255 / 255 ∧
        (scale p.g 255 : Int) = p.g * 255 / 255 ∧
        (scale p.b 255 : Int) = p.b * 255 / 255) :=
  parseColors_writes 255 (by decide) [7, 7, 7, 7, 7, 7, 7, 7, 7, 7] examplePixels (by decide)
    (by decide)

/-! ## Fewer or more pixel lines than pixels -/

theorem drop_replicate_zero (N n : Nat) :
    (List.replicate (4 * N) 0).drop (4 * n) = List.replicate (4 * (N - n)) (0 : Nat) := by
  rw [List.drop_replicate]
  congr 1
  omega

/-- C13, as stated, fails: with one pixel line for a 2 by 1 image, `convert` reaches the
encoder with a buffer whose second pixel has alpha `0`. -/
theorem convert_short_input_alpha :
    convert (some (str "P3\n2 1\n255\n255 0 0\n")) true
      = .ok [.create, .encode ⟨[255, 0, 0, 255, 0, 0, 0, 0], 8, ⟨0, 0, 2, 1⟩⟩] := by
  decide

/-- C13, amended: for every input whose lines, each shorter than 65536 bytes, are a header
`P3`, `W H`, `M` (tokens read as positive integers, `W * H * 4` within the allocation limit)
followed by `n ≤ W * H` well-formed pixel lines, `convert` reaches the encoder with a buffer
of `W * H` pixels in which every pixel that has a pixel line (`k < n`) has alpha `255` and
every other pixel (`n ≤ k < W * H`) has alpha `0`. -/
theorem convert_alpha (content tw th tm : GoString) (W H M : Int) (px : List PixelLine)
    (hraw : rawLines content
      = str "P3" :: (tw ++ str " " ++ th) :: tm :: px.map PixelLine.text)
    (hshort : ∀ l ∈ rawLines content, l.length < maxScanTokenSize)
    (hW : Atoi tw = .ok W) (hH : Atoi th = .ok H) (hM : Atoi tm = .ok M)
    (hWpos : 0 < W) (hHpos : 0 < H) (hMpos : 0 < M)
    (hcount : (px.length : Int) ≤ W * H) (hsize : 4 * (W * H) ≤ maxAlloc)
    (hreads : ∀ p ∈ px, p.Reads) :
    ∃ pix, convert (some content) true
        = .ok [.create, .encode ⟨pix, 4 * W, ⟨0, 0, W, H⟩⟩] ∧
      (pix.length : Int) = W * H * 4 ∧
      (∀ k, k < px.length → pix[4 * k + 3]? = some 255) ∧
      (∀ k, px.length ≤ k → (k : Int) < W * H → pix[4 * k + 3]? = some 0) := by
  have hhdr := parseHeader_of_file content tw th tm W H M px hraw hshort hW hH hM hreads
  have hnew := NewRGBA_of_pos W H hWpos hHpos hsize
  have hroom : 4 * px.length ≤ (List.replicate (4 * (W * H).toNat) (0 : Nat)).length := by
    rw [List.length_replicate]
    omega
  have hcol := parseColors_of_room M (by omega) (List.replicate (4 * (W * H).toNat) 0) px
    hreads hroom
  refine ⟨pixelBytes M px ++ (List.replicate (4 * (W * H).toNat) 0).drop (4 * px.length),
    ?_, ?_, ?_, ?_⟩
  · exact convert_of_results content W H M _ _ _ hhdr hnew hcol
  · rw [List.length_append, pixelBytes_length, List.length_drop, List.length_replicate]
    omega
  · intro k hk
    have hp : px[k]? = some px[k] := List.getElem?_eq_getElem hk
    exact (pixelBytes_append_getElem M px _ k _ hp).2.2.2
  · intro k hk hkN
    rw [pixelBytes_append_drop_getElem M px _ (4 * k + 3) (by omega),
      List.getElem?_replicate]
    have hlt : 4 * k + 3 < 4 * (W * H).toNat := by omega
    simp [hlt]

theorem convert_alpha_witness :
    ∃ pix, convert (some (str "P3\n2 1\n255\n255 0 0\n")) true
        = .ok [.create, .encode ⟨pix, 4 * 2, ⟨0, 0, 2, 1⟩⟩] ∧
      (pix.length : Int) = 2 * 1 * 4 ∧
      (∀ k, k < [PixelLine.mk (str "255") (str "0") (str "0") 255 0 0].length →
        pix[4 * k + 3]? = some 255) ∧
      (∀ k, [PixelLine.mk (str "255") (str "0") (str "0") 255 0 0].length ≤ k →
        (k : Int) < 2 * 1 → pix[4 * k + 3]? = some 0) :=
  convert_alpha (str "P3\n2 1\n255\n255 0 0\n") (str "2") (str "1") (str "255") 2 1 255
    [⟨str "255", str "0", str "0", 255, 0, 0⟩]
    (by decide) (by decide) (by decide) (by decide) (by decide) (by decide) (by decide)
    (by decide) (by decide) (by decide) (by decide)

/-- C14: for every `W > 0`, `H > 0`, `M > 0` and every stream of `n < W * H` well-formed
pixel lines, `parseColors` on the zeroed buffer of `W * H * 4` bytes (the buffer
`image.NewRGBA` allocates when it is within the allocation limit) completes with a nil error,
without a panic, and the bytes of the `W * H - n` pixels that have no line are left at zero. -/
theorem parseColors_short_input (W H M : Int) (hW : 0 < W) (hH : 0 < H) (hM : 0 < M)
    (px : List PixelLine) (hreads : ∀ p ∈ px, p.Reads)
    (hshort : (px.length : Int) < W * H) :
    parseColors ((px.map PixelLine.text).map some) (List.replicate (4 * (W * H).toNat) 0) M
      = .ok ⟨none,
          pixelBytes M px ++ List.replicate (4 * ((W * H).toNat - px.length)) 0, []⟩ ∧
    (4 * (W * H) ≤ maxAlloc →
      NewRGBA (Rect 0 0 W H)
        = .ok ⟨List.replicate (4 * (W * H).toNat) 0, 4 * W, ⟨0, 0, W, H⟩⟩) := by
  constructor
  · have hroom : 4 * px.length ≤ (List.replicate (4 * (W * H).toNat) (0 : Nat)).length := by
      rw [List.length_replicate]
      omega
    rw [parseColors_of_room M (by omega) _ px hreads hroom, drop_replicate_zero]
  · intro hsize
    exact NewRGBA_of_pos W H hW hH hsize

theorem parseColors_short_input_witness :
    parseColors
        (([PixelLine.mk (str "255") (str "0") (str "0") 255 0 0].map PixelLine.text).map some)
        (List.replicate (4 * ((2 : Int) * 1).toNat) 0) 255
      = .ok ⟨none,
          pixelBytes 255 [PixelLine.mk (str "255") (str "0") (str "0") 255 0 0]
            ++ List.replicate
              (4 * (((2 : Int) * 1).toNat
                - [PixelLine.mk (str "255") (str "0") (str "0") 255 0 0].length)) 0, []⟩ ∧
    (4 * ((2 : Int) * 1) ≤ maxAlloc →
      NewRGBA (Rect 0 0 2 1)
        = .ok ⟨List.replicate (4 * ((2 : Int) * 1).toNat) 0, 4 * 2, ⟨0, 0, 2, 1⟩⟩) :=
  parseColors_short_input 2 1 255 (by decide) (by decide) (by decide)
    [⟨str "255", str "0", str "0", 255, 0, 0⟩] (by decide) (by decide)

/-- C18: for every `W > 0`, `H > 0`, `M > 0` and every stream of more than `W * H`
well-formed pixel lines, `parseColors` on the buffer of `W * H * 4` bytes ends in an
index-out-of-range panic: after `W * H` lines the buffer is full, and the store of the first
byte of the next line, at index `4 * W * H`, is outside it.  Nothing is truncated and no error
is returned. -/
theorem parseColors_excess_input (W H M : Int) (hW : 0 < W) (hH : 0 < H) (hM : 0 < M)
    (px : List PixelLine) (hreads : ∀ p ∈ px, p.Reads)
    (hlong : W * H < (px.length : Int)) :
    parseColors ((px.map PixelLine.text).map some) (List.replicate (4 * (W * H).toNat) 0) M
      = .error .indexOutOfRange ∧
    (pixelBytes M (px.take (W * H).toNat)).length = 4 * (W * H).toNat ∧
    (∀ p, px[(W * H).toNat]? = some p →
      storeColor (pixelBytes M (px.take (W * H).toNat)) (4 * (W * H).toNat) p.tokR M
        = .error .indexOutOfRange) := by
  have hpos : 0 < W * H := Int.mul_pos hW hH
  have hM0 : M ≠ 0 := by omega
  have hN : (W * H).toNat < px.length := by omega
  have htake : (px.take (W * H).toNat).length = (W * H).toNat := by
    rw [List.length_take]
    omega
  have hlen : (pixelBytes M (px.take (W * H).toNat)).length = 4 * (W * H).toNat := by
    rw [pixelBytes_length, htake]
  have hsplit : px = px.take (W * H).toNat ++ px[(W * H).toNat] :: px.drop ((W * H).toNat + 1) := by
    rw [← List.drop_eq_getElem_cons hN, List.take_append_drop]
  have hrt : ∀ q ∈ px.take (W * H).toNat, q.Reads :=
    fun q hq => hreads q (List.mem_of_mem_take hq)
  have hrp : (px[(W * H).toNat]).Reads := hreads _ (List.getElem_mem _)
  refine ⟨?_, hlen, ?_⟩
  · have happ := parseColorsLoop_append M hM0 (px.take (W * H).toNat) hrt
      (some (px[(W * H).toNat]).text
        :: ((px.drop ((W * H).toNat + 1)).map PixelLine.text).map some) []
      (List.replicate (4 * (W * H).toNat) 0) (by rw [htake, List.length_replicate])
    simp only [List.nil_append, List.length_nil, Nat.zero_add, htake] at happ
    have hmap : (px.map PixelLine.text).map some
        = ((px.take (W * H).toNat).map PixelLine.text).map some
          ++ some (px[(W * H).toNat]).text
            :: ((px.drop ((W * H).toNat + 1)).map PixelLine.text).map some := by
      conv_lhs => rw [hsplit]
      rw [List.map_append, List.map_cons, List.map_append, List.map_cons]
    rw [parseColors, hmap, happ]
    apply (parseColorsLoop_past_end M hM0 _ hrp _ _ _ _ _).2
    rw [List.length_append, hlen, List.length_drop, List.length_replicate]
    omega
  · intro p hp
    have hpe : p = px[(W * H).toNat] := by
      rw [List.getElem?_eq_getElem hN] at hp
      exact (Option.some.inj hp).symm
    subst hpe
    exact (parseColorsLoop_past_end M hM0 _ hrp [] _ _ none (by omega)).1

theorem parseColors_excess_input_witness :
    parseColors ((examplePixels.map PixelLine.text).map some)
        (List.replicate (4 * ((1 : Int) * 1).toNat) 0) 255
      = .error .indexOutOfRange ∧
    (pixelBytes 255 (examplePixels.take ((1 : Int) * 1).toNat)).length
      = 4 * ((1 : Int) * 1).toNat ∧
    (∀ p, examplePixels[((1 : Int) * 1).toNat]? = some p →
      storeColor (pixelBytes 255 (examplePixels.take ((1 : Int) * 1).toNat))
          (4 * ((1 : Int) * 1).toNat) p.tokR 255
        = .error .indexOutOfRange) :=
  parseColors_excess_input 1 1 255 (by decide) (by decide) (by decide) examplePixels
    (by decide) (by decide)

/-! ## Separators other than one space -/

/-- A line that is not split into three tokens: the loop stops at it and writes nothing. -/
theorem parseColors_of_not_three (line : GoString) (h : (Split line 32).length ≠ 3)
    (rest : Scanner) (pix : List Nat) (m : Int) :
    parseColors (some line :: rest) pix m = .ok ⟨none, pix, rest⟩ := by
  unfold parseColors parseColorsLoop
  split
  · next v0 v1 v2 heq => simp [heq] at h
  · rfl

/-- C17, as stated, fails: a pixel line with tabs, or with two spaces in a row, is not decoded
to the bytes of `255 0 0`, and the dimensions line `2\t1` does not give width 2, height 1. -/
theorem whitespace_not_accepted :
    parseColors [str "255 0 0"] [0, 0, 0, 0] 255 = .ok ⟨none, [255, 0, 0, 255], []⟩ ∧
    parseColors [str "255\t0\t0"] [0, 0, 0, 0] 255 = .ok ⟨none, [0, 0, 0, 0], []⟩ ∧
    parseColors [str "255  0 0"] [0, 0, 0, 0] 255 = .ok ⟨none, [0, 0, 0, 0], []⟩ ∧
    (parseHeader [str "P3", str "2\t1", str "255"]).width = 0 ∧
    (parseHeader [str "P3", str "2\t1", str "255"]).height = 0 := by
  decide

/-- C17, amended: tokens are separated by exactly one space.  For every `maxVal > 0` the
pixel line `255 0 0` is decoded to its four bytes; a line that holds no space (such as
`255\t0\t0`) is one token and the line `255  0 0` is four tokens, so `parseColors` stops at
such a line and writes no byte for it; and the dimensions line `2\t1` is one token, for which
`parseHeader` returns width 0 and height 0, not 2 and 1. -/
theorem single_space_separator (m : Int) (hm : 0 < m) :
    parseColors [str "255 0 0"] [0, 0, 0, 0] m
      = .ok ⟨none, [scale 255 m, scale 0 m, scale 0 m, 255], []⟩ ∧
    (∀ (line : GoString) (rest : Scanner) (pix : List Nat), 32 ∉ line →
      Split line 32 = [line] ∧
      ∃ e, parseColors (some line :: rest) pix m = .ok ⟨e, pix, rest⟩) ∧
    Split (str "255  0 0") 32 = [str "255", [], str "0", str "0"] ∧
    (∀ (rest : Scanner) (pix : List Nat),
      ∃ e, parseColors (str "255  0 0" :: rest) pix m = .ok ⟨e, pix, rest⟩) ∧
    Split (str "2\t1") 32 = [str "2\t1"] ∧
    (∀ rest : Scanner,
      (parseHeader (str "P3" :: str "2\t1" :: rest)).width = 0 ∧
      (parseHeader (str "P3" :: str "2\t1" :: rest)).height = 0) := by
  have hm0 : m ≠ 0 := by omega
  have h2 : Split (str "255  0 0") 32 = [str "255", [], str "0", str "0"] := by decide
  have ht : Split (str "2\t1") 32 = [str "2\t1"] := by decide
  have hP3 : (str "P3" ≠ fileHeader) = False := by simp [fileHeader]
  refine ⟨?_, ?_, h2, ?_, ht, ?_⟩
  · have h := parseColors_of_room m hm0 [0, 0, 0, 0]
      [⟨str "255", str "0", str "0", 255, 0, 0⟩] (by decide) (by decide)
    have ht : PixelLine.text ⟨str "255", str "0", str "0", 255, 0, 0⟩ = str "255 0 0" := by
      decide
    simpa [pixelBytes, PixelLine.bytes, ht] using h
  · intro line rest pix hno
    have hs := Split_of_not_mem line 32 hno
    exact ⟨hs, none, parseColors_of_not_three line (by simp [hs]) rest pix m⟩
  · intro rest pix
    exact ⟨none, parseColors_of_not_three _ (by simp [h2]) rest pix m⟩
  · intro rest
    simp only [parseHeader, hP3, if_false, parseHeaderDims, ht, and_self]

theorem single_space_separator_witness :
    parseColors [str "255 0 0"] [0, 0, 0, 0] 255
      = .ok ⟨none, [scale 255 255, scale 0 255, scale 0 255, 255], []⟩ ∧
    (∀ (line : GoString) (rest : Scanner) (pix : List Nat), 32 ∉ line →
      Split line 32 = [line] ∧
      ∃ e, parseColors (some line :: rest) pix 255 = .ok ⟨e, pix, rest⟩) ∧
    Split (str "255  0 0") 32 = [str "255", [], str "0", str "0"] ∧
    (∀ (rest : Scanner) (pix : List Nat),
      ∃ e, parseColors (str "255  0 0" :: rest) pix 255 = .ok ⟨e, pix, rest⟩) ∧
    Split (str "2\t1") 32 = [str "2\t1"] ∧
    (∀ rest : Scanner,
      (parseHeader (str "P3" :: str "2\t1" :: rest)).width = 0 ∧
      (parseHeader (str "P3" :: str "2\t1" :: rest)).height = 0) :=
  single_space_separator 255 (by decide)

end Ppm2png
